import Mathlib

/-!
Verification development for the bounded agentic tool-use loop of
`src/server/claude_agent.py` (class `ClaudeCodeAgent`).  The Python module is
embedded shallowly: pure helpers become Lean functions, the orchestrator loop
becomes a fuel-bounded step function over an explicit state record, the
filesystem becomes a rose tree, and the generative-model service becomes a
script of events consumed one per `messages.create` call.
-/

namespace TicketAgent

/-! ## Budget constants (claude_agent.py lines 33-37) -/

def MAX_ITERATIONS : Nat := 10
def MAX_TOOL_CALLS : Nat := 10
def MAX_READS : Nat := 3
def MAX_SEARCHES : Nat := 2
def RESPONSE_MAX_TOKENS : Nat := 2500

/-! ## Data model (dataclasses `TicketAnalysis`, `CodeChange`) -/

structure TicketAnalysis where
  title : String
  description : String
  requirements : List String
  files_to_modify : List String
  implementation_plan : List String
  estimated_complexity : String
  ticket_number : Option String
deriving Repr, DecidableEq

structure CodeChange where
  file_path : String
  original_content : String
  new_content : String
  change_description : String
deriving Repr, DecidableEq

/-! ## Character classes used by the regexes in the Python source -/

def isUpperAZ (c : Char) : Bool := 'A' ≤ c && c ≤ 'Z'

def isDigit09 (c : Char) : Bool := '0' ≤ c && c ≤ '9'

/-- Python regex `\w` over the strings the module handles (ASCII view). -/
def isWordChar (c : Char) : Bool := c.isAlphanum || c == '_'

/-- Length of the maximal run of characters satisfying `p` at the head. -/
def runLength (p : Char → Bool) : List Char → Nat
  | [] => 0
  | c :: cs => if p c then runLength p cs + 1 else 0

/-- Both ends trimmed of whitespace, as Python `str.strip()`. -/
def charTrim (cs : List Char) : List Char :=
  ((cs.dropWhile Char.isWhitespace).reverse.dropWhile Char.isWhitespace).reverse

/-! ## Metadata extractor: `extract_ticket_number` (lines 405-430)

`re.search` with `\b([A-Z]{2,10}-\d+)\b`, falling back to `\b([A-Z]+\d+)\b`.
Because the letter and digit classes are disjoint from what may follow them,
the greedy engine can match at a position only by taking the whole maximal
run, so each pattern is decided from maximal-run lengths. -/

def boundaryOk (prev : Option Char) : Bool :=
  match prev with
  | none => true
  | some c => !isWordChar c

/-- One attempt of `\b([A-Z]{2,10}-\d+)\b` at the head of `cs`; `prev` is the
character just before the head (`none` at the start of the string). -/
def matchPat1 (prev : Option Char) (cs : List Char) : Option (List Char) :=
  if !boundaryOk prev then none else
  let l := runLength isUpperAZ cs
  if l < 2 || 10 < l then none else
  match cs.drop l with
  | '-' :: rest =>
    let d := runLength isDigit09 rest
    if d = 0 then none
    else if (rest.drop d).head?.all (fun c => !isWordChar c) then
      some (cs.take l ++ '-' :: rest.take d)
    else none
  | _ => none

/-- One attempt of `\b([A-Z]+\d+)\b` at the head of `cs`. -/
def matchPat2 (prev : Option Char) (cs : List Char) : Option (List Char) :=
  if !boundaryOk prev then none else
  let l := runLength isUpperAZ cs
  if l = 0 then none else
  let rest := cs.drop l
  let d := runLength isDigit09 rest
  if d = 0 then none
  else if (rest.drop d).head?.all (fun c => !isWordChar c) then
    some (cs.take l ++ rest.take d)
  else none

/-- `re.search`: try the pattern at each position, left to right. -/
def searchAux (pat : Option Char → List Char → Option (List Char)) :
    Option Char → List Char → Option (List Char)
  | prev, cs =>
    match pat prev cs with
    | some r => some r
    | none =>
      match cs with
      | [] => none
      | c :: rest => searchAux pat (some c) rest

def extract_ticket_number (ticket_description : String) : Option String :=
  match searchAux matchPat1 none ticket_description.data with
  | some r => some (String.mk r)
  | none => (searchAux matchPat2 none ticket_description.data).map String.mk

/-! ## Metadata extractor: `create_title_from_description` (lines 432-455) -/

/-- `re.sub(r'^[A-Z]+-\d+:?\s*', '', s)`: drop one leading ticket-number
prefix when present. -/
def stripTicketPrefix (cs : List Char) : List Char :=
  let l := runLength isUpperAZ cs
  if l = 0 then cs else
  match cs.drop l with
  | '-' :: rest =>
    let d := runLength isDigit09 rest
    if d = 0 then cs
    else
      let rest2 := rest.drop d
      let rest3 := match rest2 with
        | ':' :: r => r
        | _ => rest2
      rest3.dropWhile Char.isWhitespace
  | _ => cs

def create_title_from_description (description : String) : String :=
  let clean_desc := stripTicketPrefix (charTrim description.data)
  let first_line := charTrim (clean_desc.takeWhile (· != '\n'))
  let first_line := if first_line = [] then charTrim (clean_desc.take 100) else first_line
  let title := charTrim (first_line.take 80)
  if title = [] then "Implement ticket requirements" else String.mk title

/-! ## Metadata extractor: `extract_keywords` (lines 355-374) -/

def isKeywordChar (c : Char) : Bool := c.isAlphanum || c == '_' || c == '-'

/-- Maximal runs of characters satisfying `p`, as `re.findall` with a greedy
single-class pattern returns them.  Structurally recursive on a fuel that the
wrapper sets to the list length (each step consumes at least one character,
so the fuel never runs out). -/
def charRunsAux (p : Char → Bool) : Nat → List Char → List (List Char)
  | 0, _ => []
  | _, [] => []
  | fuel + 1, c :: cs =>
    if p c then (c :: cs.takeWhile p) :: charRunsAux p fuel (cs.dropWhile p)
    else charRunsAux p fuel cs

def charRuns (p : Char → Bool) (l : List Char) : List (List Char) :=
  charRunsAux p l.length l

def stopWords : List String :=
  ["the", "and", "with", "from", "into", "that", "this", "ticket",
   "add", "update", "create", "implement", "fix", "bug", "feature"]

def extract_keywords (ticket : String) : List String :=
  let words := (charRuns isKeywordChar ticket.data).filter (fun r => 3 ≤ r.length)
  let uniq := words.foldl
    (fun acc w =>
      let lw := String.mk (w.map Char.toLower)
      if stopWords.contains lw || acc.contains lw then acc else acc ++ [lw]) []
  uniq.take 6

/-! ## Transcript messages and content blocks -/

/-- One tool input map.  The Python side passes loosely-typed JSON; the fields
below are the keys the six tools read (absent keys behave as the tool's
documented default). -/
structure ToolInput where
  file_path : String
  content : String
  directory_path : String
  pattern : String
  file_extension : Option String
  head : Nat
  tail : Nat
  files : List String
  truncate_bytes : Nat
deriving Repr, DecidableEq

/-- The all-defaults tool input, for building inputs by structure update. -/
def ToolInput.base : ToolInput :=
  { file_path := "", content := "", directory_path := "", pattern := "",
    file_extension := none, head := 80, tail := 60, files := [],
    truncate_bytes := 2048 }

inductive Block where
  | text (s : String)
  | toolUse (id name : String) (input : ToolInput)
  | toolResult (tool_use_id content : String)
deriving Repr, DecidableEq

structure Msg where
  role : String
  content : List Block
deriving Repr, DecidableEq

/-! ## History pruner: `_prune_messages` (lines 376-403)

The Python scans `reversed(messages)`, appends user/assistant messages while
under their caps, always appends other roles, and reverses at the end. -/

def pruneRev (max_user_msgs max_assistant_msgs : Nat) :
    List Msg → Nat → Nat → List Msg
  | [], _, _ => []
  | m :: rest, user_count, assistant_count =>
    if m.role = "user" then
      if user_count < max_user_msgs then
        m :: pruneRev max_user_msgs max_assistant_msgs rest (user_count + 1) assistant_count
      else
        pruneRev max_user_msgs max_assistant_msgs rest user_count assistant_count
    else if m.role = "assistant" then
      if assistant_count < max_assistant_msgs then
        m :: pruneRev max_user_msgs max_assistant_msgs rest user_count (assistant_count + 1)
      else
        pruneRev max_user_msgs max_assistant_msgs rest user_count assistant_count
    else
      m :: pruneRev max_user_msgs max_assistant_msgs rest user_count assistant_count

def _prune_messages (messages : List Msg) (max_user_msgs max_assistant_msgs : Nat) :
    List Msg :=
  (pruneRev max_user_msgs max_assistant_msgs messages.reverse 0 0).reverse

/-! ## MD5 (`hashlib.md5(...).hexdigest()`), RFC 1321, on Nat with explicit
`% 2^32`.  Validated against `hashlib` test vectors, including multi-block
and non-ASCII inputs. -/

def w32 (n : Nat) : Nat := n % 4294967296

def rotl32 (x s : Nat) : Nat := w32 ((x <<< s) + (x >>> (32 - s)))

def md5F (b c d : Nat) : Nat := Nat.lor (Nat.land b c) (Nat.land (4294967295 - b) d)

def md5G (b c d : Nat) : Nat := Nat.lor (Nat.land d b) (Nat.land (4294967295 - d) c)

def md5H (b c d : Nat) : Nat := Nat.xor b (Nat.xor c d)

def md5I (b c d : Nat) : Nat := Nat.xor c (Nat.lor b (4294967295 - d))

def kTable : List Nat :=
  [0xd76aa478, 0xe8c7b756, 0x242070db, 0xc1bdceee,
   0xf57c0faf, 0x4787c62a, 0xa8304613, 0xfd469501,
   0x698098d8, 0x8b44f7af, 0xffff5bb1, 0x895cd7be,
   0x6b901122, 0xfd987193, 0xa679438e, 0x49b40821,
   0xf61e2562, 0xc040b340, 0x265e5a51, 0xe9b6c7aa,
   0xd62f105d, 0x02441453, 0xd8a1e681, 0xe7d3fbc8,
   0x21e1cde6, 0xc33707d6, 0xf4d50d87, 0x455a14ed,
   0xa9e3e905, 0xfcefa3f8, 0x676f02d9, 0x8d2a4c8a,
   0xfffa3942, 0x8771f681, 0x6d9d6122, 0xfde5380c,
   0xa4beea44, 0x4bdecfa9, 0xf6bb4b60, 0xbebfbc70,
   0x289b7ec6, 0xeaa127fa, 0xd4ef3085, 0x04881d05,
   0xd9d4d039, 0xe6db99e5, 0x1fa27cf8, 0xc4ac5665,
   0xf4292244, 0x432aff97, 0xab9423a7, 0xfc93a039,
   0x655b59c3, 0x8f0ccc92, 0xffeff47d, 0x85845dd1,
   0x6fa87e4f, 0xfe2ce6e0, 0xa3014314, 0x4e0811a1,
   0xf7537e82, 0xbd3af235, 0x2ad7d2bb, 0xeb86d391]

def sTable : List Nat :=
  [7, 12, 17, 22, 7, 12, 17, 22, 7, 12, 17, 22, 7, 12, 17, 22,
   5, 9, 14, 20, 5, 9, 14, 20, 5, 9, 14, 20, 5, 9, 14, 20,
   4, 11, 16, 23, 4, 11, 16, 23, 4, 11, 16, 23, 4, 11, 16, 23,
   6, 10, 15, 21, 6, 10, 15, 21, 6, 10, 15, 21, 6, 10, 15, 21]

def md5Step (M : List Nat) (st : Nat × Nat × Nat × Nat) (i : Nat) : Nat × Nat × Nat × Nat :=
  let a := st.1
  let b := st.2.1
  let c := st.2.2.1
  let d := st.2.2.2
  let fg : Nat × Nat :=
    if i < 16 then (md5F b c d, i)
    else if i < 32 then (md5G b c d, (5 * i + 1) % 16)
    else if i < 48 then (md5H b c d, (3 * i + 5) % 16)
    else (md5I b c d, (7 * i) % 16)
  let tmp := w32 (a + fg.1 + kTable.getD i 0 + M.getD fg.2 0)
  (d, w32 (b + rotl32 tmp (sTable.getD i 0)), b, c)

def md5Block (st0 : Nat × Nat × Nat × Nat) (M : List Nat) : Nat × Nat × Nat × Nat :=
  let r := (List.range 64).foldl (md5Step M) st0
  (w32 (st0.1 + r.1), w32 (st0.2.1 + r.2.1), w32 (st0.2.2.1 + r.2.2.1), w32 (st0.2.2.2 + r.2.2.2))

def leBytes4 (n : Nat) : List Nat := [n % 256, n / 256 % 256, n / 65536 % 256, n / 16777216 % 256]

def leBytes8 (n : Nat) : List Nat := leBytes4 n ++ leBytes4 (n / 4294967296)

def padMsg (bytes : List Nat) : List Nat :=
  let len := bytes.length
  let z := (120 - ((len + 1) % 64)) % 64
  bytes ++ 128 :: List.replicate z 0 ++ leBytes8 ((8 * len) % 18446744073709551616)

/-- 64-byte blocks (fuel-based structural recursion, fuel = list length;
each step consumes at least one byte). -/
def chunksAux : Nat → List Nat → List (List Nat)
  | 0, _ => []
  | _, [] => []
  | fuel + 1, b :: rest => ((b :: rest).take 64) :: chunksAux fuel ((b :: rest).drop 64)

def chunksOf64 (l : List Nat) : List (List Nat) := chunksAux l.length l

def leWords16 (block : List Nat) : List Nat :=
  (List.range 16).map fun j =>
    block.getD (4 * j) 0 + 256 * block.getD (4 * j + 1) 0 +
      65536 * block.getD (4 * j + 2) 0 + 16777216 * block.getD (4 * j + 3) 0

/-- UTF-8 encoding of a string, as `str.encode()` passes it to `hashlib`. -/
def utf8Bytes (s : String) : List Nat :=
  s.data.foldr
    (fun c acc =>
      let n := c.toNat
      (if n < 128 then [n]
       else if n < 2048 then [192 + n / 64, 128 + n % 64]
       else if n < 65536 then [224 + n / 4096, 128 + n / 64 % 64, 128 + n % 64]
       else [240 + n / 262144, 128 + n / 4096 % 64, 128 + n / 64 % 64, 128 + n % 64]) ++ acc)
    []

def md5Digest (bytes : List Nat) : List Nat :=
  let st := (chunksOf64 (padMsg bytes)).foldl (fun st blk => md5Block st (leWords16 blk))
    (0x67452301, 0xefcdab89, 0x98badcfe, 0x10325476)
  leBytes4 st.1 ++ leBytes4 st.2.1 ++ leBytes4 st.2.2.1 ++ leBytes4 st.2.2.2

def hexChar (n : Nat) : Char := if n < 10 then Char.ofNat (48 + n) else Char.ofNat (87 + n)

def byteHex (b : Nat) : List Char := [hexChar (b / 16), hexChar (b % 16)]

/-- `hashlib.md5(s.encode()).hexdigest()` as a character list. -/
def md5HexChars (s : String) : List Char := (md5Digest (utf8Bytes s)).flatMap byteHex

/-! ## Branch namer: `create_unique_branch_name` (lines 457-487) -/

/-- `hashlib.md5(ticket_description.encode()).hexdigest()[:8]`. -/
def desc_hash8 (ticket_description : String) : List Char :=
  (md5HexChars ticket_description).take 8

def isSlugKeep (c : Char) : Bool :=
  ('a' ≤ c && c ≤ 'z') || ('0' ≤ c && c ≤ '9') || c.isWhitespace || c == '-'

/-- `re.sub(r'\s+', '-', s)`: collapse each whitespace run to one hyphen
(fuel-based structural recursion, fuel = list length). -/
def squashWsAux : Nat → List Char → List Char
  | 0, _ => []
  | _, [] => []
  | fuel + 1, c :: cs =>
    if c.isWhitespace then '-' :: squashWsAux fuel (cs.dropWhile Char.isWhitespace)
    else c :: squashWsAux fuel cs

def squashWs (l : List Char) : List Char := squashWsAux l.length l

/-- `re.sub(r'-+', '-', s)`: collapse each hyphen run to one hyphen
(fuel-based structural recursion, fuel = list length). -/
def squashDashAux : Nat → List Char → List Char
  | 0, _ => []
  | _, [] => []
  | fuel + 1, c :: cs =>
    if c == '-' then '-' :: squashDashAux fuel (cs.dropWhile (· == '-'))
    else c :: squashDashAux fuel cs

def squashDash (l : List Char) : List Char := squashDashAux l.length l

/-- Python `str.rstrip('-')`. -/
def rstripDash (l : List Char) : List Char := (l.reverse.dropWhile (· == '-')).reverse

/-- Python `str.strip('-')`. -/
def stripDashes (l : List Char) : List Char := rstripDash (l.dropWhile (· == '-'))

/-- The slug built from `analysis.title` in `create_unique_branch_name`. -/
def titleSlug (title : String) : List Char :=
  let s := (title.toLower.data).filter isSlugKeep
  let s := squashWs (charTrim s)
  let s := squashDash s
  let s := stripDashes s
  if 50 < s.length then rstripDash (s.take 50) else s

def create_unique_branch_name (analysis : TicketAnalysis) (ticket_description : String) :
    String :=
  let pfx :=
    match analysis.ticket_number with
    | some tn => tn.toLower
    | none => "ticket-" ++ String.mk (desc_hash8 ticket_description)
  "feature/" ++ pfx ++ "-" ++ String.mk (titleSlug analysis.title)

/-! ## Filesystem model

The working tree under `self.current_repo_path` is a rose tree; a file
carries its text and whether it decodes as UTF-8 (a non-decodable file makes
strict-mode `open(...).read()` raise `UnicodeDecodeError`, which
`search_files` skips and `read_file` surfaces as a tool-execution error). -/

inductive FSNode where
  | file (name content : String) (decodable : Bool)
  | dir (name : String) (children : List FSNode)
deriving Repr

def nodeName : FSNode → String
  | .file nm _ _ => nm
  | .dir nm _ => nm

def splitPath (p : String) : List String := (p.splitOn "/").filter (· ≠ "")

def findChild (name : String) : List FSNode → Option FSNode
  | [] => none
  | n :: rest => if nodeName n = name then some n else findChild name rest

/-- Resolve a relative path against the repository root; the empty path is
the root directory itself. -/
def findNode : List FSNode → List String → Option FSNode
  | nodes, [] => some (.dir "" nodes)
  | nodes, c :: rest =>
    match findChild c nodes with
    | some (.dir nm ch) => if rest = [] then some (.dir nm ch) else findNode ch rest
    | some (.file nm ct d) => if rest = [] then some (.file nm ct d) else none
    | none => none

def setChild (nodes : List FSNode) (name : String) (n2 : FSNode) : List FSNode :=
  nodes.map fun n => if nodeName n = name then n2 else n

/-- `os.makedirs(dirname, exist_ok=True)` followed by `open(path, 'w')`:
creates missing intermediate directories, overwrites an existing file.
`none` when a component clashes with an existing file or the path names a
directory (Python raises there, caught by `_execute_tool`). -/
def writeInto : List FSNode → List String → String → Option (List FSNode)
  | _, [], _ => none
  | nodes, [fname], content =>
    match findChild fname nodes with
    | some (.dir _ _) => none
    | some (.file _ _ _) => some (setChild nodes fname (.file fname content true))
    | none => some (nodes ++ [.file fname content true])
  | nodes, d :: c :: rest, content =>
    match findChild d nodes with
    | some (.dir nm ch) =>
      (writeInto ch (c :: rest) content).map fun ch2 => setChild nodes d (.dir nm ch2)
    | some (.file _ _ _) => none
    | none =>
      (writeInto [] (c :: rest) content).map fun ch2 => nodes ++ [.dir d ch2]

/-- Python `file.readlines()`: split keeping each `\n` terminator. -/
def readlines (s : String) : List String :=
  let ps := s.splitOn "\n"
  let withNl := ps.dropLast.map (fun l => l ++ "\n")
  if ps.getLast? = some "" then withNl else withNl ++ [ps.getLastD ""]

/-- Python `str.strip()`. -/
def strip (s : String) : String := String.mk (charTrim s.data)

/-- Python `pat in hay` on strings (substring containment). -/
def hasSub (pat : List Char) : List Char → Bool
  | [] => pat.isPrefixOf []
  | c :: rest => pat.isPrefixOf (c :: rest) || hasSub pat rest

/-! ## Symbol-outline matcher

`re.match(r'^\s*(export\s+)?(class|function|const|let|var|def|interface|type)\b',
stripped)` from `peek_file` and `read_files`. -/

def declKeywords : List String :=
  ["class", "function", "const", "let", "var", "def", "interface", "type"]

def startsWithKeyword (cs : List Char) : Bool :=
  declKeywords.any fun k =>
    cs.take k.length == k.data && (cs.drop k.length).head?.all (fun c => !isWordChar c)

def matchesDeclLine (s : String) : Bool :=
  let cs := s.data.dropWhile Char.isWhitespace
  startsWithKeyword cs ||
    (cs.take 6 == "export".data &&
      ((cs.drop 6).head?.any Char.isWhitespace) &&
      startsWithKeyword ((cs.drop 6).dropWhile Char.isWhitespace))

/-- One outline, shared by `peek_file` (cap 120) and `read_files` (cap 20). -/
def outlineOf (lines : List String) (cap : Nat) : List String :=
  ((lines.enum.filterMap fun p =>
    if matchesDeclLine p.2 then some ("L" ++ toString (p.1 + 1) ++ ": " ++ strip p.2)
    else none).take cap)

/-! ## `search_files` walk (lines 249-281) -/

structure SearchMatch where
  file : String
  line_numbers : List Nat
deriving Repr, DecidableEq

def buildSkipDirs : List String := ["node_modules", "__pycache__", "venv", "dist", "build"]

/-- Python `s.startswith(p)`, on the character sequences. -/
def startswith (s p : String) : Bool := p.data.isPrefixOf s.data

/-- Python `s.endswith(p)`, on the character sequences. -/
def endswith (s p : String) : Bool := p.data.reverse.isPrefixOf s.data.reverse

def keptDir (nm : String) : Bool := !startswith nm "." && !buildSkipDirs.contains nm

/-- `[i+1 for i, line in enumerate(lines) if pattern in line][:5]`. -/
def lineNumbersFor (pattern content : String) : List Nat :=
  ((content.splitOn "\n").enum.filterMap fun p =>
    if hasSub pattern.data p.2.data then some (p.1 + 1) else none).take 5

/-- The matches contributed by the plain files of one directory level
(`for file in files` in the `os.walk` body). -/
def fileMatchesHere (pattern : String) (ext : Option String) (pre : List String)
    (nodes : List FSNode) : List SearchMatch :=
  nodes.filterMap fun n =>
    match n with
    | .dir _ _ => none
    | .file nm ct dec =>
      if startswith nm "." then none
      else if (match ext with | some e => !endswith nm e | none => false) then none
      else if !dec then none
      else if hasSub pattern.data ct.data then
        some ⟨String.intercalate "/" (pre ++ [nm]), lineNumbersFor pattern ct⟩
      else none

/-- Descent of `os.walk` into the non-pruned subdirectories (top-down, the
current level's files before the subtrees). -/
def subWalk (pattern : String) (ext : Option String) : List String → List FSNode → List SearchMatch
  | _, [] => []
  | pre, .file _ _ _ :: rest => subWalk pattern ext pre rest
  | pre, .dir nm ch :: rest =>
    (if keptDir nm then
      fileMatchesHere pattern ext (pre ++ [nm]) ch ++ subWalk pattern ext (pre ++ [nm]) ch
     else []) ++ subWalk pattern ext pre rest
termination_by _ l => sizeOf l
decreasing_by
  · simp; try omega
  · simp; try omega
  · simp; try omega

def search_files_walk (fs : List FSNode) (pattern : String) (ext : Option String) :
    List SearchMatch :=
  (fileMatchesHere pattern ext [] fs ++ subWalk pattern ext [] fs).take 20

/-! ## Tool dispatcher: `_execute_tool` (lines 208-353) -/

inductive FileReadResult where
  | err (msg : String)
  | ok (content : String) (outline : List String) (truncated : Bool)
deriving Repr, DecidableEq

inductive ToolOutput where
  | error (msg : String)
  | content (s : String)
  | success (msg : String)
  | items (l : List (String × String))
  | matches (l : List SearchMatch)
  | peek (head_block tail_block : String) (outline : List String) (total_lines : Nat)
  | filesOut (l : List (String × FileReadResult))
deriving Repr, DecidableEq

def knownTools : List String :=
  ["read_file", "write_file", "list_directory", "search_files", "peek_file", "read_files"]

def _execute_tool (current_repo_path : String) (fs : List FSNode)
    (tool_name : String) (tool_input : ToolInput) : ToolOutput × List FSNode :=
  if current_repo_path = "" then
    (.error "No repository path set. Cannot execute file operations.", fs)
  else if tool_name = "read_file" then
    match findNode fs (splitPath tool_input.file_path) with
    | none => (.error ("File not found: " ++ tool_input.file_path), fs)
    | some (.dir _ _) => (.error "Tool execution failed: is a directory", fs)
    | some (.file _ ct dec) =>
      if dec then (.content ct, fs) else (.error "Tool execution failed: invalid encoding", fs)
  else if tool_name = "write_file" then
    match writeInto fs (splitPath tool_input.file_path) tool_input.content with
    | some fs2 => (.success ("File written successfully: " ++ tool_input.file_path), fs2)
    | none => (.error "Tool execution failed: cannot write path", fs)
  else if tool_name = "list_directory" then
    match findNode fs (splitPath tool_input.directory_path) with
    | none => (.error ("Directory not found: " ++ tool_input.directory_path), fs)
    | some (.file _ _ _) => (.error "Tool execution failed: not a directory", fs)
    | some (.dir _ ch) =>
      (.items (ch.map fun n =>
        (nodeName n, match n with | .dir _ _ => "directory" | _ => "file")), fs)
  else if tool_name = "search_files" then
    (.matches (search_files_walk fs tool_input.pattern tool_input.file_extension), fs)
  else if tool_name = "peek_file" then
    match findNode fs (splitPath tool_input.file_path) with
    | none => (.error ("File not found: " ++ tool_input.file_path), fs)
    | some (.dir _ _) => (.error "Could not read file: is a directory", fs)
    | some (.file _ ct _) =>
      let lines := readlines ct
      let head_block := String.join (lines.take tool_input.head)
      let tail_block :=
        if 0 < tool_input.tail && tool_input.head < lines.length then
          String.join (lines.drop (lines.length - tool_input.tail))
        else ""
      (.peek head_block tail_block (outlineOf lines 120) lines.length, fs)
  else if tool_name = "read_files" then
    let tb := tool_input.truncate_bytes
    let results := tool_input.files.map fun fp =>
      match findNode fs (splitPath fp) with
      | none => (fp, FileReadResult.err ("File not found: " ++ fp))
      | some (.dir _ _) => (fp, FileReadResult.err "Could not read file: is a directory")
      | some (.file _ ct _) =>
        let content0 := String.mk (ct.data.take tb)
        let content := if tb < ct.length then content0 ++ "\n... (truncated)" else content0
        (fp, FileReadResult.ok content (outlineOf (content.splitOn "\n") 20)
          (decide (tb ≤ content.length)))
    (.filesOut results, fs)
  else
    (.error ("Unknown tool: " ++ tool_name), fs)

/-! ## Orchestrator loop: `analyze_ticket` (lines 489-731)

The generative-model service is a script of events, one consumed per
`messages.create` call: a reply (the returned content blocks), a
`RateLimitError`, or any other exception.  An exhausted script behaves as a
failing service call.  The loop state carries, besides the Python locals
(`messages`, `files_modified`, the three budget counters, `iteration`), the
observables the theorems speak about: every message ever appended to the
transcript, every model call made (with its `max_tokens` and the messages it
was sent), and the budget counters at each observation point. -/

inductive ModelEvent where
  | reply (blocks : List Block)
  | rateLimit
  | failure (msg : String)
deriving Repr, DecidableEq

structure ToolCall where
  id : String
  name : String
  input : ToolInput
deriving Repr, DecidableEq

structure CallRec where
  max_tokens : Nat
  sent : List Msg
deriving Repr, DecidableEq

inductive Phase where
  | running
  | finished
  | errored (msg : String)
deriving Repr, DecidableEq

structure AgentSt where
  phase : Phase
  script : List ModelEvent
  messages : List Msg
  appendedLog : List Msg
  files_modified : List (String × String)
  tool_calls_used : Nat
  reads_used : Nat
  searches_used : Nat
  fs : List FSNode
  repoPath : String
  iteration : Nat
  calls : List CallRec
  budgetTrace : List (Nat × Nat × Nat)
deriving Repr

def obsOf (st : AgentSt) : Nat × Nat × Nat := (st.tool_calls_used, st.reads_used, st.searches_used)

def pushObs (st : AgentSt) : AgentSt :=
  { st with budgetTrace := st.budgetTrace ++ [obsOf st] }

def appendMsg (st : AgentSt) (m : Msg) : AgentSt :=
  { st with messages := st.messages ++ [m], appendedLog := st.appendedLog ++ [m] }

def userText (s : String) : Msg := ⟨"user", [.text s]⟩

def rateLimitDirective : Msg :=
  userText "Rate limit encountered. Do not read more. Implement changes now."

def budgetExhaustedDirective : Msg :=
  userText "Tool budget exhausted. Proceed to implement changes now."

/-- `json.dumps` of a one-entry error dict, as fed back on budget rejection. -/
def jsonErrorStr (msg : String) : String := "\x7b\"error\": \"" ++ msg ++ "\"\x7d"

def quoteStr (s : String) : String := "\"" ++ s ++ "\""

def encodeFileResult : FileReadResult → String
  | .err m => jsonErrorStr m
  | .ok c o t =>
    "\x7b\"content\": " ++ quoteStr c ++ ", \"outline\": [" ++
      String.intercalate ", " (o.map quoteStr) ++ "], \"truncated\": " ++
      (if t then "true" else "false") ++ "\x7d"

/-- `json.dumps(result)` over the dispatcher's result dictionaries. -/
def encodeOutput : ToolOutput → String
  | .error m => jsonErrorStr m
  | .content s => "\x7b\"content\": " ++ quoteStr s ++ "\x7d"
  | .success m => "\x7b\"success\": " ++ quoteStr m ++ "\x7d"
  | .items l =>
    "\x7b\"items\": [" ++
      String.intercalate ", " (l.map fun p =>
        "\x7b\"name\": " ++ quoteStr p.1 ++ ", \"type\": " ++ quoteStr p.2 ++ "\x7d") ++ "]\x7d"
  | .matches l =>
    "\x7b\"matches\": [" ++
      String.intercalate ", " (l.map fun m =>
        "\x7b\"file\": " ++ quoteStr m.file ++ ", \"line_numbers\": [" ++
          String.intercalate ", " (m.line_numbers.map toString) ++ "]\x7d") ++ "]\x7d"
  | .peek h t o n =>
    "\x7b\"head\": " ++ quoteStr h ++ ", \"tail\": " ++ quoteStr t ++ ", \"outline\": [" ++
      String.intercalate ", " (o.map quoteStr) ++ "], \"total_lines\": " ++ toString n ++ "\x7d"
  | .filesOut l =>
    "\x7b\"files\": \x7b" ++
      String.intercalate ", " (l.map fun p => quoteStr p.1 ++ ": " ++ encodeFileResult p.2) ++
      "\x7d\x7d"

def isReadTool (n : String) : Bool := n == "read_file" || n == "peek_file" || n == "read_files"

def budgetResult (id msg : String) : Block := .toolResult id (jsonErrorStr msg)

def isSuccessOutput : ToolOutput → Bool
  | .success _ => true
  | _ => false

/-- The three counter bumps of lines 611-631: one read, one search (each
only when its category matches), then one tool call unconditionally. -/
def bumpCounters (st : AgentSt) (c : ToolCall) : AgentSt :=
  let st1 := if isReadTool c.name then { st with reads_used := st.reads_used + 1 } else st
  let st2 :=
    if c.name == "search_files" then { st1 with searches_used := st1.searches_used + 1 }
    else st1
  { st2 with tool_calls_used := st2.tool_calls_used + 1 }

/-- Lines 632-650, after the counters were bumped: the
`tool_calls_used >= MAX_TOOL_CALLS` break (directive message, no execution),
or execution through `_execute_tool` with write tracking. -/
def dispatchExec (st3 : AgentSt) (c : ToolCall) : AgentSt × List Block × Bool :=
  if MAX_TOOL_CALLS ≤ st3.tool_calls_used then
    (pushObs (appendMsg st3 budgetExhaustedDirective), [], true)
  else
    let r := _execute_tool st3.repoPath st3.fs c.name c.input
    let st4 :=
      { st3 with
        fs := r.2,
        files_modified :=
          if c.name == "write_file" && isSuccessOutput r.1 then
            st3.files_modified ++ [(c.input.file_path, "Modified via write_file")]
          else st3.files_modified }
    (pushObs st4, [Block.toolResult c.id (encodeOutput r.1)], false)

/-- One pass of the `for tool_call in tool_calls` body (lines 607-650).
Returns the updated state, the tool-result blocks this call contributed, and
whether the `tool_calls_used >= MAX_TOOL_CALLS` break fired. -/
def dispatchOne (st : AgentSt) (c : ToolCall) : AgentSt × List Block × Bool :=
  if isReadTool c.name && decide (MAX_READS ≤ st.reads_used) then
    (pushObs st, [budgetResult c.id "read budget exhausted"], false)
  else if c.name == "search_files" && decide (MAX_SEARCHES ≤ st.searches_used) then
    (pushObs st, [budgetResult c.id "search budget exhausted"], false)
  else
    dispatchExec (bumpCounters st c) c

def dispatchCalls (st : AgentSt) (acc : List Block) : List ToolCall → AgentSt × List Block
  | [] => (st, acc)
  | c :: rest =>
    let r := dispatchOne st c
    if r.2.2 then (r.1, acc ++ r.2.1)
    else dispatchCalls r.1 (acc ++ r.2.1) rest

def toolCallsOf (blocks : List Block) : List ToolCall :=
  blocks.filterMap fun b =>
    match b with
    | .toolUse id n inp => some ⟨id, n, inp⟩
    | _ => none

/-- From the model's reply onward: append the assistant message, collect the
tool-use blocks, dispatch them under the budget, append the batched
tool-result user message (lines 591-654). -/
def continueWithReply (st : AgentSt) (blocks : List Block) : AgentSt :=
  let st := appendMsg st ⟨"assistant", blocks⟩
  let tcs := toolCallsOf blocks
  if tcs.isEmpty then { st with phase := .finished }
  else
    let r := dispatchCalls st [] tcs
    if r.2.isEmpty then r.1 else appendMsg r.1 ⟨"user", r.2⟩

/-- `int(RESPONSE_MAX_TOKENS * 0.6)`. -/
def REDUCED_MAX_TOKENS : Nat := RESPONSE_MAX_TOKENS * 6 / 10

def recordCall (st : AgentSt) (maxTok : Nat) : AgentSt :=
  { st with calls := st.calls ++ [⟨maxTok, st.messages⟩] }

/-- One iteration of the `while iteration < MAX_ITERATIONS` loop: prune,
call the model (with the single rate-limit retry of lines 582-590), then
handle the reply. -/
def stepIter (st : AgentSt) : AgentSt :=
  match st.phase with
  | .finished => st
  | .errored _ => st
  | .running =>
    let st := { st with iteration := st.iteration + 1 }
    let st := { st with messages := _prune_messages st.messages 6 6 }
    match st.script with
    | [] => { (recordCall st RESPONSE_MAX_TOKENS) with phase := .errored "model call failed" }
    | e :: rest =>
      let st := recordCall { st with script := rest } RESPONSE_MAX_TOKENS
      match e with
      | .failure msg => { st with phase := .errored msg }
      | .reply blocks => continueWithReply st blocks
      | .rateLimit =>
        let st := appendMsg st rateLimitDirective
        match st.script with
        | [] => { (recordCall st REDUCED_MAX_TOKENS) with phase := .errored "model call failed" }
        | e2 :: rest2 =>
          let st := recordCall { st with script := rest2 } REDUCED_MAX_TOKENS
          match e2 with
          | .reply blocks => continueWithReply st blocks
          | .rateLimit => { st with phase := .errored "rate limit" }
          | .failure msg => { st with phase := .errored msg }

def runLoop : Nat → AgentSt → AgentSt
  | 0, st => st
  | n + 1, st => if st.phase = .running then runLoop n (stepIter st) else st

/-- The initial prompt f-string (lines 511-551). -/
def initialPrompt (ticket_description : String) (keywords : List String)
    (repository_context : String) : String :=
  "You are a senior engineer with a strict tool and token budget.\n\nOBJECTIVE\nImplement the ticket with minimal exploration: produce concrete code edits and create a PR.\n\nBUDGET RULES (hard):\n- Max " ++
    toString MAX_TOOL_CALLS ++
    " tool calls total.\n- Max " ++ toString MAX_READS ++
    " reads (prefer peek_file over read_file).\n- Max " ++ toString MAX_SEARCHES ++
    " searches.\n- After you have enough context for the first change, STOP EXPLORING and WRITE THE CHANGE.\n\nWORKFLOW\n1) Make a 3-step PLAN: (a) likely files, (b) exact searches, (c) specific edit(s) you'll attempt first.\n2) Do at most " ++
    toString MAX_SEARCHES ++
    " targeted search_files using 1-3 precise keywords each.\n3) For the TOP-1 candidate file per change, use peek_file. Only use read_file if the specific lines are needed to write.\n4) Write changes EARLY via write_file. Prefer localized changes; follow project patterns you see.\n5) If a file doesn't exist yet, create it in an appropriate directory.\n\nOUTPUT DISCIPLINE\n- Keep responses short.\n- Avoid repeating long excerpts; rely on outlines and peeks.\n- If tool budgets are low/exhausted: proceed to write.\n\nTICKET\n" ++
    ticket_description ++
    "\n\nSUGGESTED KEYWORDS (use these for targeted searches):\n" ++
    (if keywords.isEmpty then "No keywords extracted" else String.intercalate ", " keywords) ++
    "\n\nREPO CONTEXT (paths only):\n" ++
    (if repository_context = "" then "N/A" else String.mk (repository_context.data.take 12000)) ++
    "\n\nAVAILABLE TOOLS:\n- peek_file: Read first/last N lines + symbol outline (PREFERRED for exploration)\n- read_files: Read multiple small files at once, truncated to 2KB each (efficient batching)\n- read_file: Read complete file contents (use sparingly)\n- write_file: Create or modify files\n- list_directory: List files and directories\n- search_files: Search for text patterns (use keywords above)\n\nBegin by posting your PLAN, then act."

/-- The externally visible output of one run, plus the run's observables. -/
structure RunOutcome where
  analysis : TicketAnalysis
  changes : List CodeChange
  iterations : Nat
  calls : List CallRec
  budgetTrace : List (Nat × Nat × Nat)
  appendedLog : List Msg
  viaFallback : Bool
deriving Repr

/-- Re-reading a written file after the loop (lines 670-689); unreadable or
missing files leave `new_content` empty. -/
def readFinal (fs : List FSNode) (p : String) : String :=
  match findNode fs (splitPath p) with
  | some (.file _ ct dec) => if dec then ct else ""
  | _ => ""

/-- The fallback notes artifact written on the error path (lines 713-729). -/
def fallbackNotesContent (fallback_title ticket_description err : String) : String :=
  "# Implementation for: " ++ fallback_title ++ "\n\n## Description\n" ++ ticket_description ++
    "\n\n## Status\nThis is a placeholder implementation due to an error in tool-based code generation.\nPlease review the ticket requirements and implement manually.\n\n## Error\n" ++
    err ++ "\n"

/-- The state at the top of the `while` loop: the seed transcript holds the
initial prompt, all counters are zero. -/
def initState (script : List ModelEvent) (fs0 : List FSNode)
    (ticket_description repository_context local_repo_path : String) : AgentSt :=
  let initMsg : Msg :=
    ⟨"user", [.text (initialPrompt ticket_description
      (extract_keywords ticket_description) repository_context)]⟩
  { phase := .running, script := script, messages := [initMsg], appendedLog := [initMsg],
    files_modified := [], tool_calls_used := 0, reads_used := 0, searches_used := 0,
    fs := fs0, repoPath := local_repo_path, iteration := 0, calls := [],
    budgetTrace := [(0, 0, 0)] }

/-- After the loop: the normal path builds the analysis and re-reads the
written files (lines 656-693); the exception path builds the fallback
analysis and the single notes artifact (lines 695-731). -/
def finishOutcome (ticket_description : String) (ticket_number : Option String)
    (stF : AgentSt) : RunOutcome :=
  match stF.phase with
  | .errored e =>
    let fallback_title := create_title_from_description ticket_description
    { analysis := ⟨fallback_title, ticket_description, [ticket_description], [],
        ["Analyze requirements", "Implement changes", "Test implementation"], "medium",
        ticket_number⟩,
      changes := [⟨"IMPLEMENTATION_NOTES.md", "",
        fallbackNotesContent fallback_title ticket_description e,
        "Created implementation notes for " ++ fallback_title⟩],
      iterations := stF.iteration, calls := stF.calls, budgetTrace := stF.budgetTrace,
      appendedLog := stF.appendedLog, viaFallback := true }
  | _ =>
    { analysis := ⟨create_title_from_description ticket_description, ticket_description,
        [ticket_description], stF.files_modified.map Prod.fst,
        ["Explore codebase", "Understand requirements", "Implement changes",
         "Test implementation"], "medium", ticket_number⟩,
      changes := stF.files_modified.map fun p => ⟨p.1, "", readFinal stF.fs p.1, p.2⟩,
      iterations := stF.iteration, calls := stF.calls, budgetTrace := stF.budgetTrace,
      appendedLog := stF.appendedLog, viaFallback := false }

def analyze_ticket (script : List ModelEvent) (fs0 : List FSNode)
    (ticket_description repository_context local_repo_path : String) : RunOutcome :=
  finishOutcome ticket_description (extract_ticket_number ticket_description)
    (runLoop MAX_ITERATIONS
      (initState script fs0 ticket_description repository_context local_repo_path))

/-! ## Lemmas about the history pruner -/

def isUserMsg (m : Msg) : Bool := m.role == "user"

def isAssistantMsg (m : Msg) : Bool := m.role == "assistant"

def isOtherMsg (m : Msg) : Bool := !isUserMsg m && !isAssistantMsg m

theorem pruneRev_sublist (mu ma : Nat) (l : List Msg) (u a : Nat) :
    (pruneRev mu ma l u a).Sublist l := by
  induction l generalizing u a with
  | nil => simp [pruneRev]
  | cons m rest ih =>
    simp only [pruneRev]
    split_ifs with h1 h2 h3 h4
    · exact (ih _ _).cons₂ m
    · exact (ih _ _).cons m
    · exact (ih _ _).cons₂ m
    · exact (ih _ _).cons m
    · exact (ih _ _).cons₂ m

theorem pruneRev_filter_user (mu ma : Nat) (l : List Msg) (u a : Nat) :
    (pruneRev mu ma l u a).filter isUserMsg = (l.filter isUserMsg).take (mu - u) := by
  induction l generalizing u a with
  | nil => simp [pruneRev]
  | cons m rest ih =>
    simp only [pruneRev]
    split_ifs with h1 h2 h3 h4
    · have hmu : mu - u = (mu - (u + 1)) + 1 := by omega
      simp [List.filter_cons, isUserMsg, h1, hmu, ih]
    · have hmu : mu - u = 0 := by omega
      simp [List.filter_cons, isUserMsg, h1, hmu, ih]
    · have hm : isUserMsg m = false := by simp [isUserMsg, h1]
      simp [List.filter_cons, hm, ih]
    · have hm : isUserMsg m = false := by simp [isUserMsg, h1]
      simp [List.filter_cons, hm, ih]
    · have hm : isUserMsg m = false := by simp [isUserMsg, h1]
      simp [List.filter_cons, hm, ih]

theorem pruneRev_filter_assistant (mu ma : Nat) (l : List Msg) (u a : Nat) :
    (pruneRev mu ma l u a).filter isAssistantMsg =
      (l.filter isAssistantMsg).take (ma - a) := by
  induction l generalizing u a with
  | nil => simp [pruneRev]
  | cons m rest ih =>
    simp only [pruneRev]
    split_ifs with h1 h2 h3 h4
    · have hm : isAssistantMsg m = false := by simp [isAssistantMsg, h1]
      simp [List.filter_cons, hm, ih]
    · have hm : isAssistantMsg m = false := by simp [isAssistantMsg, h1]
      simp [List.filter_cons, hm, ih]
    · have hma : ma - a = (ma - (a + 1)) + 1 := by omega
      simp [List.filter_cons, isAssistantMsg, h3, hma, ih]
    · have hma : ma - a = 0 := by omega
      simp [List.filter_cons, isAssistantMsg, h3, hma, ih]
    · have hm : isAssistantMsg m = false := by simp [isAssistantMsg, h3]
      simp [List.filter_cons, hm, ih]

theorem pruneRev_filter_other (mu ma : Nat) (l : List Msg) (u a : Nat) :
    (pruneRev mu ma l u a).filter isOtherMsg = l.filter isOtherMsg := by
  induction l generalizing u a with
  | nil => simp [pruneRev]
  | cons m rest ih =>
    simp only [pruneRev]
    split_ifs with h1 h2 h3 h4
    · have hm : isOtherMsg m = false := by simp [isOtherMsg, isUserMsg, h1]
      simp [List.filter_cons, hm, ih]
    · have hm : isOtherMsg m = false := by simp [isOtherMsg, isUserMsg, h1]
      simp [List.filter_cons, hm, ih]
    · have hm : isOtherMsg m = false := by simp [isOtherMsg, isAssistantMsg, h3]
      simp [List.filter_cons, hm, ih]
    · have hm : isOtherMsg m = false := by simp [isOtherMsg, isAssistantMsg, h3]
      simp [List.filter_cons, hm, ih]
    · have hm : isOtherMsg m = true := by
        simp [isOtherMsg, isUserMsg, isAssistantMsg, h1, h3]
      simp [List.filter_cons, hm, ih]

/-- C7.  `_prune_messages` returns a subsequence of its input (hence in the
original chronological order), whose user-role messages are exactly the most
recent `max_user_msgs` user messages, whose assistant-role messages are
exactly the most recent `max_assistant_msgs` assistant messages (so the two
caps hold), and which retains every message of any other role. -/
theorem C7_prune_messages_shape (msgs : List Msg) (mu ma : Nat) :
    (_prune_messages msgs mu ma).Sublist msgs ∧
    (_prune_messages msgs mu ma).filter isUserMsg =
      ((msgs.filter isUserMsg).reverse.take mu).reverse ∧
    (_prune_messages msgs mu ma).filter isAssistantMsg =
      ((msgs.filter isAssistantMsg).reverse.take ma).reverse ∧
    (_prune_messages msgs mu ma).filter isOtherMsg = msgs.filter isOtherMsg ∧
    (_prune_messages msgs mu ma).countP isUserMsg ≤ mu ∧
    (_prune_messages msgs mu ma).countP isAssistantMsg ≤ ma := by
  refine ⟨?_, ?_, ?_, ?_, ?_, ?_⟩
  · have h := (pruneRev_sublist mu ma msgs.reverse 0 0).reverse
    simpa [_prune_messages] using h
  · show List.filter isUserMsg (pruneRev mu ma msgs.reverse 0 0).reverse = _
    rw [List.filter_reverse, pruneRev_filter_user]
    simp
  · show List.filter isAssistantMsg (pruneRev mu ma msgs.reverse 0 0).reverse = _
    rw [List.filter_reverse, pruneRev_filter_assistant]
    simp
  · show List.filter isOtherMsg (pruneRev mu ma msgs.reverse 0 0).reverse = _
    rw [List.filter_reverse, pruneRev_filter_other, List.filter_reverse,
      List.reverse_reverse]
  · rw [List.countP_eq_length_filter]
    show (List.filter isUserMsg (pruneRev mu ma msgs.reverse 0 0).reverse).length ≤ mu
    rw [List.filter_reverse, pruneRev_filter_user]
    simp
  · rw [List.countP_eq_length_filter]
    show (List.filter isAssistantMsg (pruneRev mu ma msgs.reverse 0 0).reverse).length ≤ ma
    rw [List.filter_reverse, pruneRev_filter_assistant]
    simp

/-! ## The tool dispatcher's boundary (C5) -/

/-- C5.  `_execute_tool` is a total function into structured results (the
`ToolOutput` sum of one success payload per tool and an error payload): with
no repository root configured it answers the no-root error and leaves the
filesystem untouched; an unknown tool name is answered with an error and no
filesystem access; and no tool other than `write_file` ever changes the
filesystem. -/
theorem C5_execute_tool_boundary (rp : String) (fs : List FSNode)
    (name : String) (inp : ToolInput) :
    (rp = "" →
      _execute_tool rp fs name inp =
        (.error "No repository path set. Cannot execute file operations.", fs)) ∧
    (rp ≠ "" → name ∉ knownTools →
      _execute_tool rp fs name inp = (.error ("Unknown tool: " ++ name), fs)) ∧
    (name ≠ "write_file" → (_execute_tool rp fs name inp).2 = fs) := by
  refine ⟨fun h => by simp [_execute_tool, h], fun h hn => ?_, fun hw => ?_⟩
  · simp only [knownTools, List.mem_cons, List.not_mem_nil, or_false, not_or] at hn
    obtain ⟨h1, h2, h3, h4, h5, h6⟩ := hn
    simp [_execute_tool, h, h1, h2, h3, h4, h5, h6]
  · unfold _execute_tool
    split_ifs <;> first
      | rfl
      | (exact absurd (by assumption) hw)
      | (split <;> first | rfl | (split_ifs <;> rfl))

/-! ## The search walk (C6) -/

theorem lineNumbersFor_length_le (pattern content : String) :
    (lineNumbersFor pattern content).length ≤ 5 := by
  simp [lineNumbersFor]

theorem mem_fileMatchesHere {pattern : String} {ext : Option String}
    {pre : List String} {nodes : List FSNode} {m : SearchMatch}
    (h : m ∈ fileMatchesHere pattern ext pre nodes) :
    ∃ nm, startswith nm "." = false ∧
      m.file = String.intercalate "/" (pre ++ [nm]) ∧
      m.line_numbers.length ≤ 5 := by
  rw [fileMatchesHere, List.mem_filterMap] at h
  obtain ⟨n, _, hfn⟩ := h
  cases n with
  | dir _ _ => simp at hfn
  | file nm ct dec =>
    by_cases h1 : startswith nm "."
    · simp [h1] at hfn
    · refine ⟨nm, by simpa using h1, ?_⟩
      simp only [h1] at hfn
      split_ifs at hfn
      all_goals simp_all
      cases hfn
      exact ⟨rfl, lineNumbersFor_length_le _ _⟩

theorem mem_subWalk {pattern : String} {ext : Option String} :
    ∀ (pre : List String) (nodes : List FSNode) (m : SearchMatch),
      m ∈ subWalk pattern ext pre nodes →
      ∃ ds nm, ds ≠ [] ∧ (∀ d ∈ ds, keptDir d = true) ∧
        startswith nm "." = false ∧
        m.file = String.intercalate "/" ((pre ++ ds) ++ [nm]) ∧
        m.line_numbers.length ≤ 5 := by
  intro pre nodes
  induction pre, nodes using subWalk.induct pattern ext with
  | case1 pre => intro m hm; simp [subWalk] at hm
  | case2 pre nm ct dec rest ih =>
    intro m hm
    rw [subWalk] at hm
    exact ih m hm
  | case3 pre nm ch rest ihch ihrest =>
    intro m hm
    rw [subWalk] at hm
    rcases List.mem_append.1 hm with hm1 | hm2
    · by_cases hk : keptDir nm = true
      · simp only [hk, if_true] at hm1
        rcases List.mem_append.1 hm1 with hma | hmb
        · obtain ⟨fn, hfn1, hfn2, hfn3⟩ := mem_fileMatchesHere hma
          refine ⟨[nm], fn, by simp, by simpa using hk, hfn1, ?_, hfn3⟩
          simpa using hfn2
        · obtain ⟨ds, fn, hne, hkept, hfn1, hfn2, hfn3⟩ := ihch m hmb
          refine ⟨nm :: ds, fn, by simp, ?_, hfn1, ?_, hfn3⟩
          · intro d hd
            rcases List.mem_cons.1 hd with rfl | hd
            · exact hk
            · exact hkept d hd
          · simpa using hfn2
      · simp only [hk] at hm1
        simp at hm1
    · exact ihrest m hm2

/-- C6.  `search_files` returns at most 20 entries; every returned path is a
`/`-joined component list in which no component (directory or file name)
starts with `.` and no directory component is one of the build-artifact
directories; and each entry carries at most 5 (the first 5) matching line
numbers. -/
theorem C6_search_files_bounds (fs : List FSNode) (pattern : String)
    (ext : Option String) :
    (search_files_walk fs pattern ext).length ≤ 20 ∧
    (∀ m ∈ search_files_walk fs pattern ext,
      m.line_numbers.length ≤ 5 ∧
      ∃ comps : List String, comps ≠ [] ∧
        m.file = String.intercalate "/" comps ∧
        (∀ c ∈ comps, startswith c "." = false) ∧
        (∀ c ∈ comps.dropLast, c ∉ buildSkipDirs)) := by
  constructor
  · simp [search_files_walk]
  · intro m hm
    have hm' : m ∈ fileMatchesHere pattern ext [] fs ++ subWalk pattern ext [] fs := by
      have := List.take_sublist 20
        (fileMatchesHere pattern ext [] fs ++ subWalk pattern ext [] fs)
      exact this.mem hm
    rcases List.mem_append.1 hm' with hma | hmb
    · obtain ⟨nm, h1, h2, h3⟩ := mem_fileMatchesHere hma
      exact ⟨h3, [nm], by simp, by simpa using h2, by simpa using h1, by simp⟩
    · obtain ⟨ds, nm, hne, hkept, h1, h2, h3⟩ := mem_subWalk [] fs m hmb
      refine ⟨h3, ds ++ [nm], by simp, by simpa using h2, ?_, ?_⟩
      · intro c hc
        rcases List.mem_append.1 hc with hc | hc
        · have := hkept c hc
          simp only [keptDir, Bool.and_eq_true, Bool.not_eq_true'] at this
          exact this.1
        · simp only [List.mem_singleton] at hc
          subst hc
          exact h1
      · intro c hc
        simp only [List.dropLast_concat] at hc
        have := hkept c hc
        simp only [keptDir, Bool.and_eq_true, Bool.not_eq_true'] at this
        have h4 := this.2
        simpa using h4

/-! ## Branch-namer lemmas (C8) -/

theorem length_flatMap_byteHex (l : List Nat) : (l.flatMap byteHex).length = 2 * l.length := by
  induction l with
  | nil => simp
  | cons b rest ih => simp [byteHex, ih]; omega

theorem md5Digest_length (bytes : List Nat) : (md5Digest bytes).length = 16 := by
  simp [md5Digest, leBytes4]

theorem md5HexChars_length (s : String) : (md5HexChars s).length = 32 := by
  rw [md5HexChars, length_flatMap_byteHex, md5Digest_length]

theorem desc_hash8_length (s : String) : (desc_hash8 s).length = 8 := by
  simp [desc_hash8, md5HexChars_length]

theorem data_mk_eq (l : List Char) : (String.mk l).data = l := rfl

theorem head?_dropWhile_not {α : Type} (p : α → Bool) (l : List α) (a : α)
    (h : (l.dropWhile p).head? = some a) : p a = false := by
  induction l with
  | nil => simp at h
  | cons c rest ih =>
    rw [List.dropWhile_cons] at h
    split_ifs at h with hc
    · exact ih h
    · simp at h
      subst h
      simpa using hc

theorem rstripDash_getLast? (l : List Char) : (rstripDash l).getLast? ≠ some '-' := by
  intro h
  rw [rstripDash, List.getLast?_reverse] at h
  have := head?_dropWhile_not _ _ _ h
  simp at this

theorem rstripDash_length_le (l : List Char) : (rstripDash l).length ≤ l.length := by
  have := (List.dropWhile_sublist (fun c => c == '-') (l := l.reverse)).length_le
  simpa [rstripDash] using this

theorem titleSlug_length_le (title : String) : (titleSlug title).length ≤ 50 := by
  rw [titleSlug]
  split_ifs with h
  · exact (rstripDash_length_le _).trans (by simp)
  · omega

theorem titleSlug_no_trailing_dash (title : String) :
    (titleSlug title).getLast? ≠ some '-' := by
  rw [titleSlug]
  split_ifs with h
  · exact rstripDash_getLast? _
  · exact rstripDash_getLast? _

/-- C8.  `create_unique_branch_name` is a pure function (two evaluations on
the same input are definitionally equal); its value has the shape
`feature/<prefix>-<slug>` with the prefix the lower-cased ticket number when
one was extracted and otherwise `ticket-` plus the 8-hex-character MD5 prefix
of the raw ticket text; the slug has at most 50 characters and no trailing
hyphen; and two no-ticket-number inputs whose 8-character hash prefixes
differ get different branch names. -/
theorem C8_create_unique_branch_name (a : TicketAnalysis) (t : String) :
    (create_unique_branch_name a t = create_unique_branch_name a t) ∧
    (∃ (pfx : String) (slug : List Char),
      create_unique_branch_name a t = "feature/" ++ pfx ++ "-" ++ String.mk slug ∧
      slug.length ≤ 50 ∧ slug.getLast? ≠ some '-' ∧
      ((∃ tn, a.ticket_number = some tn ∧ pfx = tn.toLower) ∨
        (a.ticket_number = none ∧ pfx = "ticket-" ++ String.mk (desc_hash8 t) ∧
          (desc_hash8 t).length = 8))) ∧
    (∀ (a2 : TicketAnalysis) (t2 : String),
      a.ticket_number = none → a2.ticket_number = none →
      desc_hash8 t ≠ desc_hash8 t2 →
      create_unique_branch_name a t ≠ create_unique_branch_name a2 t2) := by
  refine ⟨rfl, ?_, ?_⟩
  · refine ⟨(match a.ticket_number with
      | some tn => tn.toLower
      | none => "ticket-" ++ String.mk (desc_hash8 t)), titleSlug a.title,
      ?_, titleSlug_length_le _, titleSlug_no_trailing_dash _, ?_⟩
    · rw [create_unique_branch_name]
    · cases h : a.ticket_number with
      | some tn => exact Or.inl ⟨tn, rfl, rfl⟩
      | none => exact Or.inr ⟨rfl, rfl, desc_hash8_length t⟩
  · intro a2 t2 h1 h2 hh heq
    rw [create_unique_branch_name, create_unique_branch_name, h1, h2] at heq
    have hd := congrArg String.data heq
    simp only [String.data_append, data_mk_eq] at hd
    have h3 := hd
    simp only [List.append_assoc] at h3
    have h4 := List.append_cancel_left (List.append_cancel_left h3)
    have hlen : (desc_hash8 t).length = (desc_hash8 t2).length := by
      rw [desc_hash8_length, desc_hash8_length]
    exact hh (List.append_inj h4 hlen).1

set_option maxRecDepth 8000 in
/-- Witness for C8 at concrete inputs: distinct ticket texts with distinct
8-hex hash prefixes get distinct branch names. -/
theorem C8_create_unique_branch_name_witness :
    create_unique_branch_name ⟨"Fix the thing", "d", [], [], [], "medium", none⟩ "x" ≠
      create_unique_branch_name ⟨"Fix the thing", "d", [], [], [], "medium", none⟩ "y" :=
  (C8_create_unique_branch_name ⟨"Fix the thing", "d", [], [], [], "medium", none⟩ "x").2.2
    ⟨"Fix the thing", "d", [], [], [], "medium", none⟩ "y" rfl rfl (by decide)

/-! ## Budget rejection of a read at the ceiling (C3) -/

/-- C3.  A read-category tool request (`read_file`, `peek_file`,
`read_files`) arriving with the reads counter already at `MAX_READS` is
answered with the budget-exhausted error tool-result, is never dispatched to
the filesystem, leaves the three budget counters, the filesystem, the
tracked modifications and the transcript unchanged, and does not break the
dispatch loop. -/
theorem C3_read_budget_rejection (st : AgentSt) (c : ToolCall)
    (hname : isReadTool c.name = true) (hr : st.reads_used = MAX_READS) :
    dispatchOne st c = (pushObs st, [budgetResult c.id "read budget exhausted"], false) ∧
    (dispatchOne st c).1.fs = st.fs ∧
    (dispatchOne st c).1.reads_used = st.reads_used ∧
    (dispatchOne st c).1.searches_used = st.searches_used ∧
    (dispatchOne st c).1.tool_calls_used = st.tool_calls_used ∧
    (dispatchOne st c).1.files_modified = st.files_modified ∧
    (dispatchOne st c).1.messages = st.messages := by
  have h : dispatchOne st c = (pushObs st, [budgetResult c.id "read budget exhausted"], false) := by
    rw [dispatchOne]
    simp [hname, hr]
  refine ⟨h, ?_, ?_, ?_, ?_, ?_, ?_⟩ <;> rw [h] <;> rfl

/-- Witness for C3 at a concrete dispatch state with `reads_used = 3`. -/
theorem C3_read_budget_rejection_witness :
    dispatchOne
      { phase := .running, script := [], messages := [], appendedLog := [],
        files_modified := [], tool_calls_used := 5, reads_used := 3, searches_used := 1,
        fs := [.file "a.txt" "x" true], repoPath := "/repo", iteration := 2, calls := [],
        budgetTrace := [] }
      ⟨"call7", "read_file", ToolInput.base⟩ =
      (pushObs
        { phase := .running, script := [], messages := [], appendedLog := [],
          files_modified := [], tool_calls_used := 5, reads_used := 3, searches_used := 1,
          fs := [.file "a.txt" "x" true], repoPath := "/repo", iteration := 2, calls := [],
          budgetTrace := [] },
        [budgetResult "call7" "read budget exhausted"], false) :=
  (C3_read_budget_rejection _ ⟨"call7", "read_file", ToolInput.base⟩ rfl rfl).1

/-! ## Frame and invariant lemmas for the loop -/

theorem bumpCounters_fields (st : AgentSt) (c : ToolCall) :
    (bumpCounters st c).phase = st.phase ∧
    (bumpCounters st c).script = st.script ∧
    (bumpCounters st c).repoPath = st.repoPath ∧
    (bumpCounters st c).iteration = st.iteration ∧
    (bumpCounters st c).calls = st.calls ∧
    (bumpCounters st c).messages = st.messages ∧
    (bumpCounters st c).appendedLog = st.appendedLog ∧
    (bumpCounters st c).fs = st.fs ∧
    (bumpCounters st c).files_modified = st.files_modified ∧
    (bumpCounters st c).budgetTrace = st.budgetTrace := by
  rw [bumpCounters]
  split_ifs <;> simp

theorem bumpCounters_counters (st : AgentSt) (c : ToolCall) :
    (bumpCounters st c).tool_calls_used = st.tool_calls_used + 1 ∧
    st.reads_used ≤ (bumpCounters st c).reads_used ∧
    (bumpCounters st c).reads_used ≤ st.reads_used + 1 ∧
    st.searches_used ≤ (bumpCounters st c).searches_used ∧
    (bumpCounters st c).searches_used ≤ st.searches_used + 1 ∧
    (isReadTool c.name = false → (bumpCounters st c).reads_used = st.reads_used) ∧
    ((c.name == "search_files") = false →
      (bumpCounters st c).searches_used = st.searches_used) := by
  rw [bumpCounters]
  split_ifs <;> simp_all

theorem dispatchExec_fields (st3 : AgentSt) (c : ToolCall) :
    (dispatchExec st3 c).1.phase = st3.phase ∧
    (dispatchExec st3 c).1.script = st3.script ∧
    (dispatchExec st3 c).1.repoPath = st3.repoPath ∧
    (dispatchExec st3 c).1.iteration = st3.iteration ∧
    (dispatchExec st3 c).1.calls = st3.calls ∧
    (dispatchExec st3 c).1.tool_calls_used = st3.tool_calls_used ∧
    (dispatchExec st3 c).1.reads_used = st3.reads_used ∧
    (dispatchExec st3 c).1.searches_used = st3.searches_used ∧
    (dispatchExec st3 c).1.budgetTrace = st3.budgetTrace ++ [obsOf (dispatchExec st3 c).1] := by
  rw [dispatchExec]
  split_ifs <;> simp [pushObs, appendMsg, obsOf]

theorem dispatchExec_broke (st3 : AgentSt) (c : ToolCall) :
    (dispatchExec st3 c).2.2 = true ↔ MAX_TOOL_CALLS ≤ st3.tool_calls_used := by
  rw [dispatchExec]
  split_ifs with h <;> simp [pushObs, appendMsg, h]

theorem dispatchExec_log (st3 : AgentSt) (c : ToolCall) :
    ∃ extra, (dispatchExec st3 c).1.appendedLog = st3.appendedLog ++ extra ∧
      ∀ m ∈ extra, m.role = "user" := by
  rw [dispatchExec]
  split_ifs
  · exact ⟨[budgetExhaustedDirective], by simp [pushObs, appendMsg],
      by simp [budgetExhaustedDirective, userText]⟩
  · exact ⟨[], by simp [pushObs], by simp⟩

theorem dispatchOne_frame (st : AgentSt) (c : ToolCall) :
    (dispatchOne st c).1.phase = st.phase ∧
    (dispatchOne st c).1.script = st.script ∧
    (dispatchOne st c).1.repoPath = st.repoPath ∧
    (dispatchOne st c).1.iteration = st.iteration ∧
    (dispatchOne st c).1.calls = st.calls := by
  rw [dispatchOne]
  split_ifs
  · simp [pushObs]
  · simp [pushObs]
  · obtain ⟨e1, e2, e3, e4, e5, _, _, _, _⟩ := dispatchExec_fields (bumpCounters st c) c
    obtain ⟨b1, b2, b3, b4, b5, _, _, _, _, _⟩ := bumpCounters_fields st c
    exact ⟨e1.trans b1, e2.trans b2, e3.trans b3, e4.trans b4, e5.trans b5⟩

theorem dispatchOne_counters (st : AgentSt) (c : ToolCall) :
    st.tool_calls_used ≤ (dispatchOne st c).1.tool_calls_used ∧
    (dispatchOne st c).1.tool_calls_used ≤ st.tool_calls_used + 1 ∧
    st.reads_used ≤ (dispatchOne st c).1.reads_used ∧
    st.searches_used ≤ (dispatchOne st c).1.searches_used ∧
    (st.reads_used ≤ MAX_READS → (dispatchOne st c).1.reads_used ≤ MAX_READS) ∧
    (st.searches_used ≤ MAX_SEARCHES → (dispatchOne st c).1.searches_used ≤ MAX_SEARCHES) := by
  rw [dispatchOne]
  split_ifs with hA hB
  · simp [pushObs]
  · simp [pushObs]
  · obtain ⟨_, _, _, _, _, e6, e7, e8, _⟩ := dispatchExec_fields (bumpCounters st c) c
    obtain ⟨c1, c2, c3, c4, c5, c6, c7⟩ := bumpCounters_counters st c
    rw [e6, e7, e8, c1]
    refine ⟨by omega, by omega, c2, c4, ?_, ?_⟩
    · intro hr
      by_cases hread : isReadTool c.name = true
      · simp only [hread, Bool.true_and, decide_eq_true_eq, Bool.not_eq_true] at hA
        have : ¬ MAX_READS ≤ st.reads_used := by
          intro hcon
          exact hA (by simp [hread, hcon])
        omega
      · rw [c6 (by simpa using hread)]
        exact hr
    · intro hs
      by_cases hsearch : (c.name == "search_files") = true
      · have : ¬ MAX_SEARCHES ≤ st.searches_used := by
          intro hcon
          exact hB (by simp [hsearch, hcon])
        omega
      · rw [c7 (by simpa using hsearch)]
        exact hs

theorem dispatchOne_tc_of_not_broke (st : AgentSt) (c : ToolCall)
    (h : (dispatchOne st c).2.2 = false) :
    (dispatchOne st c).1.tool_calls_used ≤ max st.tool_calls_used (MAX_TOOL_CALLS - 1) := by
  rw [dispatchOne] at h ⊢
  split_ifs at h ⊢
  · simp [pushObs]
  · simp [pushObs]
  · obtain ⟨_, _, _, _, _, e6, _, _, _⟩ := dispatchExec_fields (bumpCounters st c) c
    obtain ⟨c1, _⟩ := bumpCounters_counters st c
    have hnb : ¬ MAX_TOOL_CALLS ≤ (bumpCounters st c).tool_calls_used := by
      intro hcon
      have hb := (dispatchExec_broke (bumpCounters st c) c).2 hcon
      rw [h] at hb
      simp at hb
    rw [e6, c1]
    rw [c1] at hnb
    simp only [MAX_TOOL_CALLS] at hnb ⊢
    omega

theorem dispatchOne_trace (st : AgentSt) (c : ToolCall) :
    (dispatchOne st c).1.budgetTrace = st.budgetTrace ++ [obsOf (dispatchOne st c).1] := by
  rw [dispatchOne]
  split_ifs
  · simp [pushObs, obsOf]
  · simp [pushObs, obsOf]
  · obtain ⟨_, _, _, _, _, _, _, _, e9⟩ := dispatchExec_fields (bumpCounters st c) c
    obtain ⟨_, _, _, _, _, _, _, _, _, b10⟩ := bumpCounters_fields st c
    rw [e9, b10]

theorem dispatchOne_log (st : AgentSt) (c : ToolCall) :
    ∃ extra, (dispatchOne st c).1.appendedLog = st.appendedLog ++ extra ∧
      ∀ m ∈ extra, m.role = "user" := by
  rw [dispatchOne]
  split_ifs
  · exact ⟨[], by simp [pushObs], by simp⟩
  · exact ⟨[], by simp [pushObs], by simp⟩
  · obtain ⟨extra, he, hroles⟩ := dispatchExec_log (bumpCounters st c) c
    obtain ⟨_, _, _, _, _, _, b7, _, _, _⟩ := bumpCounters_fields st c
    rw [b7] at he
    exact ⟨extra, he, hroles⟩

theorem dispatchExec_msgs (st3 : AgentSt) (c : ToolCall) :
    ∃ extra, (dispatchExec st3 c).1.messages = st3.messages ++ extra ∧
      ∀ m ∈ extra, m.role = "user" := by
  rw [dispatchExec]
  split_ifs
  · exact ⟨[budgetExhaustedDirective], by simp [pushObs, appendMsg],
      by simp [budgetExhaustedDirective, userText]⟩
  · exact ⟨[], by simp [pushObs], by simp⟩

theorem dispatchOne_msgs (st : AgentSt) (c : ToolCall) :
    ∃ extra, (dispatchOne st c).1.messages = st.messages ++ extra ∧
      ∀ m ∈ extra, m.role = "user" := by
  rw [dispatchOne]
  split_ifs
  · exact ⟨[], by simp [pushObs], by simp⟩
  · exact ⟨[], by simp [pushObs], by simp⟩
  · obtain ⟨extra, he, hroles⟩ := dispatchExec_msgs (bumpCounters st c) c
    obtain ⟨_, _, _, _, _, b6, _, _, _, _⟩ := bumpCounters_fields st c
    rw [b6] at he
    exact ⟨extra, he, hroles⟩

/-- Componentwise order on budget observations. -/
def obsLE (b1 b2 : Nat × Nat × Nat) : Prop :=
  b1.1 ≤ b2.1 ∧ b1.2.1 ≤ b2.2.1 ∧ b1.2.2 ≤ b2.2.2

theorem dispatchOne_obsLE (st : AgentSt) (c : ToolCall) :
    obsLE (obsOf st) (obsOf (dispatchOne st c).1) := by
  obtain ⟨h1, _, h3, h4, _, _⟩ := dispatchOne_counters st c
  exact ⟨h1, h3, h4⟩

theorem dispatchCalls_frame (cs : List ToolCall) :
    ∀ (st : AgentSt) (acc : List Block),
    (dispatchCalls st acc cs).1.phase = st.phase ∧
    (dispatchCalls st acc cs).1.script = st.script ∧
    (dispatchCalls st acc cs).1.repoPath = st.repoPath ∧
    (dispatchCalls st acc cs).1.iteration = st.iteration ∧
    (dispatchCalls st acc cs).1.calls = st.calls := by
  induction cs with
  | nil => intro st acc; simp [dispatchCalls]
  | cons c rest ih =>
    intro st acc
    rw [dispatchCalls]
    obtain ⟨d1, d2, d3, d4, d5⟩ := dispatchOne_frame st c
    split_ifs with hb
    · exact ⟨d1, d2, d3, d4, d5⟩
    · obtain ⟨i1, i2, i3, i4, i5⟩ := ih (dispatchOne st c).1 (acc ++ (dispatchOne st c).2.1)
      exact ⟨i1.trans d1, i2.trans d2, i3.trans d3, i4.trans d4, i5.trans d5⟩

theorem dispatchCalls_counters (cs : List ToolCall) :
    ∀ (st : AgentSt) (acc : List Block),
    st.tool_calls_used ≤ (dispatchCalls st acc cs).1.tool_calls_used ∧
    st.reads_used ≤ (dispatchCalls st acc cs).1.reads_used ∧
    st.searches_used ≤ (dispatchCalls st acc cs).1.searches_used ∧
    (st.reads_used ≤ MAX_READS → (dispatchCalls st acc cs).1.reads_used ≤ MAX_READS) ∧
    (st.searches_used ≤ MAX_SEARCHES →
      (dispatchCalls st acc cs).1.searches_used ≤ MAX_SEARCHES) ∧
    (dispatchCalls st acc cs).1.tool_calls_used ≤
      max (st.tool_calls_used + 1) MAX_TOOL_CALLS := by
  induction cs with
  | nil =>
    intro st acc
    refine ⟨le_refl _, le_refl _, le_refl _, id, id, ?_⟩
    simp [dispatchCalls]
  | cons c rest ih =>
    intro st acc
    rw [dispatchCalls]
    obtain ⟨d1, d2, d3, d4, d5, d6⟩ := dispatchOne_counters st c
    split_ifs with hb
    · refine ⟨d1, d3, d4, d5, d6, ?_⟩
      show (dispatchOne st c).1.tool_calls_used ≤ max (st.tool_calls_used + 1) MAX_TOOL_CALLS
      simp only [MAX_TOOL_CALLS] at d2 ⊢
      omega
    · obtain ⟨i1, i2, i3, i4, i5, i6⟩ := ih (dispatchOne st c).1 (acc ++ (dispatchOne st c).2.1)
      have htc := dispatchOne_tc_of_not_broke st c (by simpa using hb)
      refine ⟨d1.trans i1, d3.trans i2, d4.trans i3,
        fun h => i4 (d5 h), fun h => i5 (d6 h), ?_⟩
      simp only [MAX_TOOL_CALLS] at htc i6 ⊢
      omega

theorem dispatchCalls_log (cs : List ToolCall) :
    ∀ (st : AgentSt) (acc : List Block),
    ∃ extra, (dispatchCalls st acc cs).1.appendedLog = st.appendedLog ++ extra ∧
      ∀ m ∈ extra, m.role = "user" := by
  induction cs with
  | nil => intro st acc; exact ⟨[], by simp [dispatchCalls], by simp⟩
  | cons c rest ih =>
    intro st acc
    rw [dispatchCalls]
    obtain ⟨e1, he1, hr1⟩ := dispatchOne_log st c
    split_ifs with hb
    · exact ⟨e1, he1, hr1⟩
    · obtain ⟨e2, he2, hr2⟩ := ih (dispatchOne st c).1 (acc ++ (dispatchOne st c).2.1)
      refine ⟨e1 ++ e2, ?_, ?_⟩
      · rw [he2, he1, List.append_assoc]
      · intro m hm
        rcases List.mem_append.1 hm with h | h
        · exact hr1 m h
        · exact hr2 m h

theorem dispatchCalls_msgs (cs : List ToolCall) :
    ∀ (st : AgentSt) (acc : List Block),
    ∃ extra, (dispatchCalls st acc cs).1.messages = st.messages ++ extra ∧
      ∀ m ∈ extra, m.role = "user" := by
  induction cs with
  | nil => intro st acc; exact ⟨[], by simp [dispatchCalls], by simp⟩
  | cons c rest ih =>
    intro st acc
    rw [dispatchCalls]
    obtain ⟨e1, he1, hr1⟩ := dispatchOne_msgs st c
    split_ifs with hb
    · exact ⟨e1, he1, hr1⟩
    · obtain ⟨e2, he2, hr2⟩ := ih (dispatchOne st c).1 (acc ++ (dispatchOne st c).2.1)
      refine ⟨e1 ++ e2, ?_, ?_⟩
      · rw [he2, he1, List.append_assoc]
      · intro m hm
        rcases List.mem_append.1 hm with h | h
        · exact hr1 m h
        · exact hr2 m h

theorem dispatchCalls_trace (cs : List ToolCall) :
    ∀ (st : AgentSt) (acc : List Block),
    st.reads_used ≤ MAX_READS → st.searches_used ≤ MAX_SEARCHES →
    st.budgetTrace.getLast? = some (obsOf st) → List.Chain' obsLE st.budgetTrace →
    ((dispatchCalls st acc cs).1.budgetTrace.getLast? =
        some (obsOf (dispatchCalls st acc cs).1) ∧
      List.Chain' obsLE (dispatchCalls st acc cs).1.budgetTrace ∧
      ∀ b ∈ (dispatchCalls st acc cs).1.budgetTrace,
        b ∈ st.budgetTrace ∨
          (b.2.1 ≤ MAX_READS ∧ b.2.2 ≤ MAX_SEARCHES ∧
            b.1 ≤ max (st.tool_calls_used + 1) MAX_TOOL_CALLS)) := by
  induction cs with
  | nil =>
    intro st acc hr hs hlast hchain
    exact ⟨hlast, hchain, fun b hb => Or.inl hb⟩
  | cons c rest ih =>
    intro st acc hr hs hlast hchain
    obtain ⟨d1, d2, d3, d4, d5, d6⟩ := dispatchOne_counters st c
    have htr := dispatchOne_trace st c
    have hlast' : (dispatchOne st c).1.budgetTrace.getLast? =
        some (obsOf (dispatchOne st c).1) := by
      rw [htr, List.getLast?_concat]
    have hchain' : List.Chain' obsLE (dispatchOne st c).1.budgetTrace := by
      rw [htr]
      rw [List.chain'_append]
      refine ⟨hchain, by simp, ?_⟩
      intro x hx y hy
      rw [hlast] at hx
      simp at hx hy
      subst hx; subst hy
      exact dispatchOne_obsLE st c
    have hobs : (obsOf (dispatchOne st c).1).2.1 ≤ MAX_READS ∧
        (obsOf (dispatchOne st c).1).2.2 ≤ MAX_SEARCHES ∧
        (obsOf (dispatchOne st c).1).1 ≤ max (st.tool_calls_used + 1) MAX_TOOL_CALLS := by
      refine ⟨d5 hr, d6 hs, ?_⟩
      simp only [obsOf]
      omega
    rw [dispatchCalls]
    split_ifs with hb
    · refine ⟨hlast', hchain', ?_⟩
      intro b hb2
      rw [htr] at hb2
      rcases List.mem_append.1 hb2 with h | h
      · exact Or.inl h
      · simp at h
        subst h
        exact Or.inr hobs
    · have hr' : (dispatchOne st c).1.reads_used ≤ MAX_READS := d5 hr
      have hs' : (dispatchOne st c).1.searches_used ≤ MAX_SEARCHES := d6 hs
      obtain ⟨i1, i2, i3⟩ :=
        ih (dispatchOne st c).1 (acc ++ (dispatchOne st c).2.1) hr' hs' hlast' hchain'
      have htc := dispatchOne_tc_of_not_broke st c (by simpa using hb)
      refine ⟨i1, i2, ?_⟩
      intro b hb2
      rcases i3 b hb2 with h | h
      · rw [htr] at h
        rcases List.mem_append.1 h with h2 | h2
        · exact Or.inl h2
        · simp at h2
          subst h2
          exact Or.inr hobs
      · refine Or.inr ⟨h.1, h.2.1, ?_⟩
        have h3 := h.2.2
        simp only [MAX_TOOL_CALLS] at htc h3 ⊢
        omega

/-! ### `continueWithReply` lemmas -/

theorem continueWithReply_frame (st : AgentSt) (blocks : List Block) :
    (continueWithReply st blocks).script = st.script ∧
    (continueWithReply st blocks).repoPath = st.repoPath ∧
    (continueWithReply st blocks).iteration = st.iteration ∧
    (continueWithReply st blocks).calls = st.calls := by
  simp only [continueWithReply]
  split_ifs with h1 h2
  · simp [appendMsg]
  · obtain ⟨_, f2, f3, f4, f5⟩ :=
      dispatchCalls_frame (toolCallsOf blocks) (appendMsg st ⟨"assistant", blocks⟩) []
    simp only [appendMsg] at f2 f3 f4 f5
    exact ⟨f2, f3, f4, f5⟩
  · obtain ⟨_, f2, f3, f4, f5⟩ :=
      dispatchCalls_frame (toolCallsOf blocks) (appendMsg st ⟨"assistant", blocks⟩) []
    simp only [appendMsg] at f2 f3 f4 f5
    exact ⟨by simpa [appendMsg] using f2, by simpa [appendMsg] using f3,
      by simpa [appendMsg] using f4, by simpa [appendMsg] using f5⟩

theorem continueWithReply_counters (st : AgentSt) (blocks : List Block) :
    st.tool_calls_used ≤ (continueWithReply st blocks).tool_calls_used ∧
    st.reads_used ≤ (continueWithReply st blocks).reads_used ∧
    st.searches_used ≤ (continueWithReply st blocks).searches_used ∧
    (st.reads_used ≤ MAX_READS → (continueWithReply st blocks).reads_used ≤ MAX_READS) ∧
    (st.searches_used ≤ MAX_SEARCHES →
      (continueWithReply st blocks).searches_used ≤ MAX_SEARCHES) ∧
    (continueWithReply st blocks).tool_calls_used ≤
      max (st.tool_calls_used + 1) MAX_TOOL_CALLS := by
  simp only [continueWithReply]
  split_ifs with h1 h2
  · simp only [appendMsg]
    exact ⟨le_refl _, le_refl _, le_refl _, id, id, by simp⟩
  · obtain ⟨c1, c2, c3, c4, c5, c6⟩ :=
      dispatchCalls_counters (toolCallsOf blocks) (appendMsg st ⟨"assistant", blocks⟩) []
    simp only [appendMsg] at c1 c2 c3 c4 c5 c6
    exact ⟨c1, c2, c3, c4, c5, c6⟩
  · obtain ⟨c1, c2, c3, c4, c5, c6⟩ :=
      dispatchCalls_counters (toolCallsOf blocks) (appendMsg st ⟨"assistant", blocks⟩) []
    simp only [appendMsg] at c1 c2 c3 c4 c5 c6
    exact ⟨by simpa [appendMsg] using c1, by simpa [appendMsg] using c2,
      by simpa [appendMsg] using c3, by simpa [appendMsg] using c4,
      by simpa [appendMsg] using c5, by simpa [appendMsg] using c6⟩

theorem continueWithReply_trace (st : AgentSt) (blocks : List Block)
    (hr : st.reads_used ≤ MAX_READS) (hs : st.searches_used ≤ MAX_SEARCHES)
    (hlast : st.budgetTrace.getLast? = some (obsOf st))
    (hchain : List.Chain' obsLE st.budgetTrace) :
    (continueWithReply st blocks).budgetTrace.getLast? =
        some (obsOf (continueWithReply st blocks)) ∧
    List.Chain' obsLE (continueWithReply st blocks).budgetTrace ∧
    ∀ b ∈ (continueWithReply st blocks).budgetTrace,
      b ∈ st.budgetTrace ∨
        (b.2.1 ≤ MAX_READS ∧ b.2.2 ≤ MAX_SEARCHES ∧
          b.1 ≤ max (st.tool_calls_used + 1) MAX_TOOL_CALLS) := by
  rw [continueWithReply]
  have hA : (appendMsg st ⟨"assistant", blocks⟩).budgetTrace.getLast? =
      some (obsOf (appendMsg st ⟨"assistant", blocks⟩)) := by
    simpa [appendMsg, obsOf] using hlast
  have hAc : List.Chain' obsLE (appendMsg st ⟨"assistant", blocks⟩).budgetTrace := by
    simpa [appendMsg] using hchain
  simp only [continueWithReply] at *
  split_ifs with h1 h2
  · exact ⟨by simpa [appendMsg, obsOf] using hlast, by simpa [appendMsg] using hchain,
      fun b hb => Or.inl (by simpa [appendMsg] using hb)⟩
  · obtain ⟨t1, t2, t3⟩ := dispatchCalls_trace (toolCallsOf blocks)
      (appendMsg st ⟨"assistant", blocks⟩) [] (by simpa [appendMsg] using hr)
      (by simpa [appendMsg] using hs) hA hAc
    refine ⟨t1, t2, ?_⟩
    intro b hb
    rcases t3 b hb with h | h
    · exact Or.inl (by simpa [appendMsg] using h)
    · exact Or.inr (by simpa [appendMsg] using h)
  · obtain ⟨t1, t2, t3⟩ := dispatchCalls_trace (toolCallsOf blocks)
      (appendMsg st ⟨"assistant", blocks⟩) [] (by simpa [appendMsg] using hr)
      (by simpa [appendMsg] using hs) hA hAc
    refine ⟨by simpa [appendMsg, obsOf] using t1, by simpa [appendMsg] using t2, ?_⟩
    intro b hb
    rcases t3 b (by simpa [appendMsg] using hb) with h | h
    · exact Or.inl (by simpa [appendMsg] using h)
    · exact Or.inr (by simpa [appendMsg] using h)

theorem continueWithReply_log (st : AgentSt) (blocks : List Block) :
    ∃ extra, (continueWithReply st blocks).appendedLog = st.appendedLog ++ extra ∧
      ∀ m ∈ extra, m.role = "user" ∨ m.role = "assistant" := by
  simp only [continueWithReply]
  split_ifs with h1 h2
  · exact ⟨[⟨"assistant", blocks⟩], by simp [appendMsg], by simp⟩
  · obtain ⟨e, he, hr⟩ :=
      dispatchCalls_log (toolCallsOf blocks) (appendMsg st ⟨"assistant", blocks⟩) []
    refine ⟨⟨"assistant", blocks⟩ :: e, ?_, ?_⟩
    · rw [he]
      simp [appendMsg]
    · intro m hm
      rcases List.mem_cons.1 hm with rfl | hm2
      · exact Or.inr rfl
      · exact Or.inl (hr m hm2)
  · obtain ⟨e, he, hr⟩ :=
      dispatchCalls_log (toolCallsOf blocks) (appendMsg st ⟨"assistant", blocks⟩) []
    refine ⟨⟨"assistant", blocks⟩ :: (e ++ [⟨"user",
      (dispatchCalls (appendMsg st ⟨"assistant", blocks⟩) [] (toolCallsOf blocks)).2⟩]), ?_, ?_⟩
    · simp only [appendMsg] at he ⊢
      rw [he]
      simp
    · intro m hm
      rcases List.mem_cons.1 hm with rfl | hm2
      · exact Or.inr rfl
      · rcases List.mem_append.1 hm2 with h | h
        · exact Or.inl (hr m h)
        · simp at h
          subst h
          exact Or.inl rfl

theorem continueWithReply_msgs (st : AgentSt) (blocks : List Block) :
    ∃ extra, (continueWithReply st blocks).messages = st.messages ++ extra ∧
      ∀ m ∈ extra, m.role = "user" ∨ m.role = "assistant" := by
  simp only [continueWithReply]
  split_ifs with h1 h2
  · exact ⟨[⟨"assistant", blocks⟩], by simp [appendMsg], by simp⟩
  · obtain ⟨e, he, hr⟩ :=
      dispatchCalls_msgs (toolCallsOf blocks) (appendMsg st ⟨"assistant", blocks⟩) []
    refine ⟨⟨"assistant", blocks⟩ :: e, ?_, ?_⟩
    · rw [he]
      simp [appendMsg]
    · intro m hm
      rcases List.mem_cons.1 hm with rfl | hm2
      · exact Or.inr rfl
      · exact Or.inl (hr m hm2)
  · obtain ⟨e, he, hr⟩ :=
      dispatchCalls_msgs (toolCallsOf blocks) (appendMsg st ⟨"assistant", blocks⟩) []
    refine ⟨⟨"assistant", blocks⟩ :: (e ++ [⟨"user",
      (dispatchCalls (appendMsg st ⟨"assistant", blocks⟩) [] (toolCallsOf blocks)).2⟩]), ?_, ?_⟩
    · simp only [appendMsg] at he ⊢
      rw [he]
      simp
    · intro m hm
      rcases List.mem_cons.1 hm with rfl | hm2
      · exact Or.inr rfl
      · rcases List.mem_append.1 hm2 with h | h
        · exact Or.inl (hr m h)
        · simp at h
          subst h
          exact Or.inl rfl

/-! ### `stepIter` lemmas -/

/-- The budget trace is a monotone chain whose last entry is the current
counters. -/
def TraceOK (st : AgentSt) : Prop :=
  st.budgetTrace.getLast? = some (obsOf st) ∧ List.Chain' obsLE st.budgetTrace

/-- Every message the orchestrator handles is user- or assistant-tagged: in
the live transcript, in the append log, and in every transcript sent to the
model service. -/
def RolesOK (st : AgentSt) : Prop :=
  (∀ m ∈ st.messages, m.role = "user" ∨ m.role = "assistant") ∧
  (∀ m ∈ st.appendedLog, m.role = "user" ∨ m.role = "assistant") ∧
  (∀ cr ∈ st.calls, ∀ m ∈ cr.sent, m.role = "user" ∨ m.role = "assistant")

theorem prune_sublist (msgs : List Msg) (mu ma : Nat) :
    (_prune_messages msgs mu ma).Sublist msgs := by
  have h := (pruneRev_sublist mu ma msgs.reverse 0 0).reverse
  simpa [_prune_messages] using h

theorem prune_subset (msgs : List Msg) (mu ma : Nat) :
    ∀ m ∈ _prune_messages msgs mu ma, m ∈ msgs :=
  fun _ hm => (prune_sublist msgs mu ma).subset hm

theorem stepIter_nonrunning (st : AgentSt) (h : st.phase ≠ .running) :
    stepIter st = st := by
  rw [stepIter]
  cases hp : st.phase with
  | running => exact absurd hp h
  | finished => rfl
  | errored e => rfl

theorem continueWithReply_roles (st : AgentSt) (blocks : List Block)
    (h : RolesOK st) : RolesOK (continueWithReply st blocks) := by
  obtain ⟨hm, hl, hc⟩ := h
  obtain ⟨em, hem, hrm⟩ := continueWithReply_msgs st blocks
  obtain ⟨el, hel, hrl⟩ := continueWithReply_log st blocks
  obtain ⟨_, _, _, hcalls⟩ := continueWithReply_frame st blocks
  refine ⟨?_, ?_, ?_⟩
  · intro m hmem
    rw [hem] at hmem
    rcases List.mem_append.1 hmem with h2 | h2
    · exact hm m h2
    · exact hrm m h2
  · intro m hmem
    rw [hel] at hmem
    rcases List.mem_append.1 hmem with h2 | h2
    · exact hl m h2
    · exact hrl m h2
  · intro cr hcr
    rw [hcalls] at hcr
    exact hc cr hcr

/-- The eleven-fact bookkeeping conclusion of `stepIter_spec`, abstracted
over the state the iteration produced. -/
theorem stepIter_leaf (st X : AgentSt)
    (hrepo : X.repoPath = st.repoPath)
    (hiter : X.iteration ≤ st.iteration + 1)
    (hcalls : st.calls <+: X.calls)
    (htc : X.tool_calls_used = st.tool_calls_used)
    (hrd : X.reads_used = st.reads_used)
    (hse : X.searches_used = st.searches_used)
    (htrace : X.budgetTrace = st.budgetTrace)
    (hroles : RolesOK st → RolesOK X) :
    X.repoPath = st.repoPath ∧
    X.iteration ≤ st.iteration + 1 ∧
    st.calls <+: X.calls ∧
    st.tool_calls_used ≤ X.tool_calls_used ∧
    st.reads_used ≤ X.reads_used ∧
    st.searches_used ≤ X.searches_used ∧
    (st.reads_used ≤ MAX_READS → X.reads_used ≤ MAX_READS) ∧
    (st.searches_used ≤ MAX_SEARCHES → X.searches_used ≤ MAX_SEARCHES) ∧
    X.tool_calls_used ≤ max (st.tool_calls_used + 1) MAX_TOOL_CALLS ∧
    (st.reads_used ≤ MAX_READS → st.searches_used ≤ MAX_SEARCHES → TraceOK st →
      TraceOK X ∧
      ∀ b ∈ X.budgetTrace,
        b ∈ st.budgetTrace ∨
          (b.2.1 ≤ MAX_READS ∧ b.2.2 ≤ MAX_SEARCHES ∧
            b.1 ≤ max (st.tool_calls_used + 1) MAX_TOOL_CALLS)) ∧
    (RolesOK st → RolesOK X) := by
  refine ⟨hrepo, hiter, hcalls, by omega, by omega, by omega,
    fun h => by omega, fun h => by omega, by
      rw [htc]
      exact (Nat.le_succ _).trans (Nat.le_max_left _ _), ?_, hroles⟩
  intro _ _ ht
  have hobs : obsOf X = obsOf st := by
    simp [obsOf, htc, hrd, hse]
  refine ⟨⟨?_, ?_⟩, ?_⟩
  · rw [htrace, hobs]
    exact ht.1
  · rw [htrace]
    exact ht.2
  · intro b hb
    rw [htrace] at hb
    exact Or.inl hb

/-- The same conclusion when the iteration ends in `continueWithReply`
applied to a bookkeeping state. -/
theorem stepIter_cw (st stX : AgentSt) (blocks : List Block)
    (hrepo : stX.repoPath = st.repoPath)
    (hiter : stX.iteration ≤ st.iteration + 1)
    (hcalls : st.calls <+: stX.calls)
    (htc : stX.tool_calls_used = st.tool_calls_used)
    (hrd : stX.reads_used = st.reads_used)
    (hse : stX.searches_used = st.searches_used)
    (htrace : stX.budgetTrace = st.budgetTrace)
    (hroles : RolesOK st → RolesOK stX) :
    (continueWithReply stX blocks).repoPath = st.repoPath ∧
    (continueWithReply stX blocks).iteration ≤ st.iteration + 1 ∧
    st.calls <+: (continueWithReply stX blocks).calls ∧
    st.tool_calls_used ≤ (continueWithReply stX blocks).tool_calls_used ∧
    st.reads_used ≤ (continueWithReply stX blocks).reads_used ∧
    st.searches_used ≤ (continueWithReply stX blocks).searches_used ∧
    (st.reads_used ≤ MAX_READS → (continueWithReply stX blocks).reads_used ≤ MAX_READS) ∧
    (st.searches_used ≤ MAX_SEARCHES →
      (continueWithReply stX blocks).searches_used ≤ MAX_SEARCHES) ∧
    (continueWithReply stX blocks).tool_calls_used ≤
      max (st.tool_calls_used + 1) MAX_TOOL_CALLS ∧
    (st.reads_used ≤ MAX_READS → st.searches_used ≤ MAX_SEARCHES → TraceOK st →
      TraceOK (continueWithReply stX blocks) ∧
      ∀ b ∈ (continueWithReply stX blocks).budgetTrace,
        b ∈ st.budgetTrace ∨
          (b.2.1 ≤ MAX_READS ∧ b.2.2 ≤ MAX_SEARCHES ∧
            b.1 ≤ max (st.tool_calls_used + 1) MAX_TOOL_CALLS)) ∧
    (RolesOK st → RolesOK (continueWithReply stX blocks)) := by
  obtain ⟨f1, f2, f3, f4⟩ := continueWithReply_frame stX blocks
  obtain ⟨c1, c2, c3, c4, c5, c6⟩ := continueWithReply_counters stX blocks
  refine ⟨f2.trans hrepo, by rw [f3]; omega, by rw [f4]; exact hcalls,
    by omega, by omega, by omega,
    fun h => by rw [hrd] at c4; exact c4 h,
    fun h => by rw [hse] at c5; exact c5 h,
    by rw [htc] at c6; exact c6, ?_, fun h => continueWithReply_roles stX blocks (hroles h)⟩
  intro hr hs ht
  have htX : TraceOK stX := by
    constructor
    · rw [htrace]
      have hobs : obsOf stX = obsOf st := by simp [obsOf, htc, hrd, hse]
      rw [hobs]
      exact ht.1
    · rw [htrace]
      exact ht.2
  obtain ⟨t1, t2, t3⟩ := continueWithReply_trace stX blocks
    (by omega) (by omega) htX.1 htX.2
  refine ⟨⟨t1, t2⟩, ?_⟩
  intro b hb
  rcases t3 b hb with h | h
  · rw [htrace] at h
    exact Or.inl h
  · refine Or.inr ⟨h.1, h.2.1, ?_⟩
    have h2 := h.2.2
    rw [htc] at h2
    exact h2

theorem stepIter_spec (st : AgentSt) :
    (stepIter st).repoPath = st.repoPath ∧
    (stepIter st).iteration ≤ st.iteration + 1 ∧
    st.calls <+: (stepIter st).calls ∧
    st.tool_calls_used ≤ (stepIter st).tool_calls_used ∧
    st.reads_used ≤ (stepIter st).reads_used ∧
    st.searches_used ≤ (stepIter st).searches_used ∧
    (st.reads_used ≤ MAX_READS → (stepIter st).reads_used ≤ MAX_READS) ∧
    (st.searches_used ≤ MAX_SEARCHES → (stepIter st).searches_used ≤ MAX_SEARCHES) ∧
    (stepIter st).tool_calls_used ≤ max (st.tool_calls_used + 1) MAX_TOOL_CALLS ∧
    (st.reads_used ≤ MAX_READS → st.searches_used ≤ MAX_SEARCHES → TraceOK st →
      TraceOK (stepIter st) ∧
      ∀ b ∈ (stepIter st).budgetTrace,
        b ∈ st.budgetTrace ∨
          (b.2.1 ≤ MAX_READS ∧ b.2.2 ≤ MAX_SEARCHES ∧
            b.1 ≤ max (st.tool_calls_used + 1) MAX_TOOL_CALLS)) ∧
    (RolesOK st → RolesOK (stepIter st)) := by
  have hbase : ∀ st2 : AgentSt, st2 = st →
      st.repoPath = st.repoPath := fun _ _ => rfl
  rw [stepIter]
  cases hp : st.phase with
  | finished =>
    exact ⟨rfl, Nat.le_succ _, List.prefix_refl _, le_refl _, le_refl _, le_refl _, id, id,
      (Nat.le_succ _).trans (Nat.le_max_left _ _), fun _ _ ht => ⟨ht, fun b hb => Or.inl hb⟩, id⟩
  | errored e =>
    exact ⟨rfl, Nat.le_succ _, List.prefix_refl _, le_refl _, le_refl _, le_refl _, id, id,
      (Nat.le_succ _).trans (Nat.le_max_left _ _), fun _ _ ht => ⟨ht, fun b hb => Or.inl hb⟩, id⟩
  | running =>
    dsimp only
    split
    · -- script exhausted: the model call raises, the run errors out
      refine stepIter_leaf st _ rfl (Nat.le_refl _) (List.prefix_append _ _) rfl rfl rfl rfl ?_
      intro h
      refine ⟨?_, h.2.1, ?_⟩
      · intro m hm
        exact h.1 m (prune_subset _ _ _ m hm)
      · intro cr hcr
        rcases List.mem_append.1 hcr with h2 | h2
        · exact h.2.2 cr h2
        · simp at h2
          subst h2
          intro m hm
          exact h.1 m (prune_subset _ _ _ m hm)
    · -- an event was consumed
      split
      · -- the model call raised a non-rate-limit exception
        refine stepIter_leaf st _ rfl (Nat.le_refl _) (List.prefix_append _ _) rfl rfl rfl rfl ?_
        intro h
        refine ⟨?_, h.2.1, ?_⟩
        · intro m hm
          exact h.1 m (prune_subset _ _ _ m hm)
        · intro cr hcr
          rcases List.mem_append.1 hcr with h2 | h2
          · exact h.2.2 cr h2
          · simp at h2
            subst h2
            intro m hm
            exact h.1 m (prune_subset _ _ _ m hm)
      · -- the model replied: dispatch the reply
        refine stepIter_cw st _ _ rfl (Nat.le_refl _) (List.prefix_append _ _) rfl rfl rfl rfl ?_
        intro h
        refine ⟨?_, h.2.1, ?_⟩
        · intro m hm
          exact h.1 m (prune_subset _ _ _ m hm)
        · intro cr hcr
          rcases List.mem_append.1 hcr with h2 | h2
          · exact h.2.2 cr h2
          · simp at h2
            subst h2
            intro m hm
            exact h.1 m (prune_subset _ _ _ m hm)
      · -- rate limit: append the directive and retry once
        split
        · -- the retry call finds the script exhausted
          refine stepIter_leaf st _ rfl (Nat.le_refl _)
            ((List.prefix_append _ _).trans (List.prefix_append _ _)) rfl rfl rfl rfl ?_
          intro h
          refine ⟨?_, ?_, ?_⟩
          · intro m hm
            rcases List.mem_append.1 hm with h2 | h2
            · exact h.1 m (prune_subset _ _ _ m h2)
            · simp at h2
              subst h2
              exact Or.inl rfl
          · intro m hm
            rcases List.mem_append.1 hm with h2 | h2
            · exact h.2.1 m h2
            · simp at h2
              subst h2
              exact Or.inl rfl
          · intro cr hcr
            rcases List.mem_append.1 hcr with h2 | h2
            · rcases List.mem_append.1 h2 with h3 | h3
              · exact h.2.2 cr h3
              · simp at h3
                subst h3
                intro m hm
                exact h.1 m (prune_subset _ _ _ m hm)
            · simp at h2
              subst h2
              intro m hm
              rcases List.mem_append.1 hm with h3 | h3
              · exact h.1 m (prune_subset _ _ _ m h3)
              · simp at h3
                subst h3
                exact Or.inl rfl
        · -- the retry consumed a second event
          split
          · -- retry reply: dispatch it
            refine stepIter_cw st _ _ rfl (Nat.le_refl _)
              ((List.prefix_append _ _).trans (List.prefix_append _ _)) rfl rfl rfl rfl ?_
            intro h
            refine ⟨?_, ?_, ?_⟩
            · intro m hm
              rcases List.mem_append.1 hm with h2 | h2
              · exact h.1 m (prune_subset _ _ _ m h2)
              · simp at h2
                subst h2
                exact Or.inl rfl
            · intro m hm
              rcases List.mem_append.1 hm with h2 | h2
              · exact h.2.1 m h2
              · simp at h2
                subst h2
                exact Or.inl rfl
            · intro cr hcr
              rcases List.mem_append.1 hcr with h2 | h2
              · rcases List.mem_append.1 h2 with h3 | h3
                · exact h.2.2 cr h3
                · simp at h3
                  subst h3
                  intro m hm
                  exact h.1 m (prune_subset _ _ _ m hm)
              · simp at h2
                subst h2
                intro m hm
                rcases List.mem_append.1 hm with h3 | h3
                · exact h.1 m (prune_subset _ _ _ m h3)
                · simp at h3
                  subst h3
                  exact Or.inl rfl
          · -- a second consecutive rate limit: the exception propagates
            refine stepIter_leaf st _ rfl (Nat.le_refl _)
              ((List.prefix_append _ _).trans (List.prefix_append _ _)) rfl rfl rfl rfl ?_
            intro h
            refine ⟨?_, ?_, ?_⟩
            · intro m hm
              rcases List.mem_append.1 hm with h2 | h2
              · exact h.1 m (prune_subset _ _ _ m h2)
              · simp at h2
                subst h2
                exact Or.inl rfl
            · intro m hm
              rcases List.mem_append.1 hm with h2 | h2
              · exact h.2.1 m h2
              · simp at h2
                subst h2
                exact Or.inl rfl
            · intro cr hcr
              rcases List.mem_append.1 hcr with h2 | h2
              · rcases List.mem_append.1 h2 with h3 | h3
                · exact h.2.2 cr h3
                · simp at h3
                  subst h3
                  intro m hm
                  exact h.1 m (prune_subset _ _ _ m hm)
              · simp at h2
                subst h2
                intro m hm
                rcases List.mem_append.1 hm with h3 | h3
                · exact h.1 m (prune_subset _ _ _ m h3)
                · simp at h3
                  subst h3
                  exact Or.inl rfl
          · -- the retry raised some other exception
            refine stepIter_leaf st _ rfl (Nat.le_refl _)
              ((List.prefix_append _ _).trans (List.prefix_append _ _)) rfl rfl rfl rfl ?_
            intro h
            refine ⟨?_, ?_, ?_⟩
            · intro m hm
              rcases List.mem_append.1 hm with h2 | h2
              · exact h.1 m (prune_subset _ _ _ m h2)
              · simp at h2
                subst h2
                exact Or.inl rfl
            · intro m hm
              rcases List.mem_append.1 hm with h2 | h2
              · exact h.2.1 m h2
              · simp at h2
                subst h2
                exact Or.inl rfl
            · intro cr hcr
              rcases List.mem_append.1 hcr with h2 | h2
              · rcases List.mem_append.1 h2 with h3 | h3
                · exact h.2.2 cr h3
                · simp at h3
                  subst h3
                  intro m hm
                  exact h.1 m (prune_subset _ _ _ m hm)
              · simp at h2
                subst h2
                intro m hm
                rcases List.mem_append.1 hm with h3 | h3
                · exact h.1 m (prune_subset _ _ _ m h3)
                · simp at h3
                  subst h3
                  exact Or.inl rfl

theorem stepIter_iteration_running (st : AgentSt) (h : st.phase = .running) :
    (stepIter st).iteration = st.iteration + 1 := by
  rw [stepIter, h]
  dsimp only
  split
  · rfl
  · split
    · rfl
    · exact (continueWithReply_frame _ _).2.2.1
    · split
      · rfl
      · split
        · exact (continueWithReply_frame _ _).2.2.1
        · rfl
        · rfl

/-! ### The run-level invariant -/

/-- Upper bound for `tool_calls_used` after `it` completed iterations: the
ceiling is respected within the first iteration that reaches it, and each
later iteration can push the counter one further (the increment happens
before the ceiling check). -/
def tcBound : Nat → Nat
  | 0 => 0
  | it + 1 => MAX_TOOL_CALLS + it

theorem tcBound_mono {a b : Nat} (h : a ≤ b) : tcBound a ≤ tcBound b := by
  cases a with
  | zero => cases b <;> simp [tcBound]
  | succ a2 =>
    cases b with
    | zero => omega
    | succ b2 => simp [tcBound]; omega

theorem max_le_tcBound (it : Nat) :
    max (tcBound it + 1) MAX_TOOL_CALLS ≤ tcBound (it + 1) := by
  cases it with
  | zero => simp [tcBound, MAX_TOOL_CALLS]
  | succ k =>
    simp [tcBound, MAX_TOOL_CALLS]
    omega

/-- The loop invariant: reads and searches respect their ceilings, tool
calls respect the per-iteration bound, and the budget trace is a monotone
chain of bounded observations ending at the current counters. -/
def LoopInv (st : AgentSt) : Prop :=
  st.reads_used ≤ MAX_READS ∧ st.searches_used ≤ MAX_SEARCHES ∧
  st.tool_calls_used ≤ tcBound st.iteration ∧
  TraceOK st ∧
  (∀ b ∈ st.budgetTrace,
    b.2.1 ≤ MAX_READS ∧ b.2.2 ≤ MAX_SEARCHES ∧ b.1 ≤ tcBound st.iteration)

theorem stepIter_inv (st : AgentSt) (h : LoopInv st) : LoopInv (stepIter st) := by
  obtain ⟨hr, hs, htc, htr, hentries⟩ := h
  by_cases hp : st.phase = .running
  · have hit := stepIter_iteration_running st hp
    obtain ⟨_, _, _, _, _, _, s7, s8, s9, s10, _⟩ := stepIter_spec st
    obtain ⟨ht2, hb2⟩ := s10 hr hs htr
    refine ⟨s7 hr, s8 hs, ?_, ht2, ?_⟩
    · calc (stepIter st).tool_calls_used
          ≤ max (st.tool_calls_used + 1) MAX_TOOL_CALLS := s9
        _ ≤ max (tcBound st.iteration + 1) MAX_TOOL_CALLS := by
            simp only [MAX_TOOL_CALLS]
            omega
        _ ≤ tcBound (st.iteration + 1) := max_le_tcBound _
        _ = tcBound (stepIter st).iteration := by rw [hit]
    · intro b hb
      rcases hb2 b hb with h2 | h2
      · obtain ⟨e1, e2, e3⟩ := hentries b h2
        refine ⟨e1, e2, e3.trans ?_⟩
        rw [hit]
        exact tcBound_mono (Nat.le_succ _)
      · refine ⟨h2.1, h2.2.1, ?_⟩
        calc b.1 ≤ max (st.tool_calls_used + 1) MAX_TOOL_CALLS := h2.2.2
          _ ≤ max (tcBound st.iteration + 1) MAX_TOOL_CALLS := by
              simp only [MAX_TOOL_CALLS]
              omega
          _ ≤ tcBound (st.iteration + 1) := max_le_tcBound _
          _ = tcBound (stepIter st).iteration := by rw [hit]
  · rw [stepIter_nonrunning st hp]
    exact ⟨hr, hs, htc, htr, hentries⟩

theorem runLoop_nonrunning (n : Nat) (st : AgentSt) (h : st.phase ≠ .running) :
    runLoop n st = st := by
  cases n with
  | zero => rfl
  | succ n2 =>
    rw [runLoop]
    simp [h]

theorem runLoop_inv (n : Nat) : ∀ (st : AgentSt), LoopInv st → LoopInv (runLoop n st) := by
  induction n with
  | zero => intro st h; exact h
  | succ n2 ih =>
    intro st h
    rw [runLoop]
    split_ifs with hp
    · exact ih _ (stepIter_inv st h)
    · exact h

theorem runLoop_iteration (n : Nat) :
    ∀ (st : AgentSt), (runLoop n st).iteration ≤ st.iteration + n := by
  induction n with
  | zero => intro st; simp [runLoop]
  | succ n2 ih =>
    intro st
    rw [runLoop]
    split_ifs with hp
    · have h1 := ih (stepIter st)
      have h2 := (stepIter_spec st).2.1
      omega
    · omega

theorem runLoop_repoPath (n : Nat) :
    ∀ (st : AgentSt), (runLoop n st).repoPath = st.repoPath := by
  induction n with
  | zero => intro st; rfl
  | succ n2 ih =>
    intro st
    rw [runLoop]
    split_ifs with hp
    · exact (ih (stepIter st)).trans (stepIter_spec st).1
    · rfl

theorem runLoop_calls_prefix (n : Nat) :
    ∀ (st : AgentSt), st.calls <+: (runLoop n st).calls := by
  induction n with
  | zero => intro st; exact List.prefix_refl _
  | succ n2 ih =>
    intro st
    rw [runLoop]
    split_ifs with hp
    · exact (stepIter_spec st).2.2.1.trans (ih (stepIter st))
    · exact List.prefix_refl _

theorem runLoop_roles (n : Nat) :
    ∀ (st : AgentSt), RolesOK st → RolesOK (runLoop n st) := by
  induction n with
  | zero => intro st h; exact h
  | succ n2 ih =>
    intro st h
    rw [runLoop]
    split_ifs with hp
    · exact ih _ ((stepIter_spec st).2.2.2.2.2.2.2.2.2.2 h)
    · exact h

theorem runLoop_succ (n : Nat) (st : AgentSt) (hp : st.phase = .running) :
    runLoop (n + 1) st = runLoop n (stepIter st) := by
  rw [runLoop]
  simp [hp]

/-! ### One-iteration scenario lemmas -/

theorem stepIter_reply_noTools (st : AgentSt) (blocks : List Block) (rest : List ModelEvent)
    (hp : st.phase = .running) (hs : st.script = .reply blocks :: rest)
    (hnb : toolCallsOf blocks = []) :
    stepIter st =
      { st with
        phase := .finished,
        iteration := st.iteration + 1,
        script := rest,
        messages := _prune_messages st.messages 6 6 ++ [⟨"assistant", blocks⟩],
        appendedLog := st.appendedLog ++ [⟨"assistant", blocks⟩],
        calls := st.calls ++ [⟨RESPONSE_MAX_TOKENS, _prune_messages st.messages 6 6⟩] } := by
  rw [stepIter, hp, hs]
  dsimp only
  rw [continueWithReply]
  simp [hnb, recordCall, appendMsg]

theorem stepIter_failure (st : AgentSt) (msg : String) (rest : List ModelEvent)
    (hp : st.phase = .running) (hs : st.script = .failure msg :: rest) :
    stepIter st =
      { st with
        phase := .errored msg,
        iteration := st.iteration + 1,
        script := rest,
        messages := _prune_messages st.messages 6 6,
        calls := st.calls ++ [⟨RESPONSE_MAX_TOKENS, _prune_messages st.messages 6 6⟩] } := by
  rw [stepIter, hp, hs]
  dsimp only
  simp [recordCall]

theorem stepIter_rl_reply (st : AgentSt) (blocks : List Block) (rest : List ModelEvent)
    (hp : st.phase = .running) (hs : st.script = .rateLimit :: .reply blocks :: rest) :
    (stepIter st).calls =
      st.calls ++ [⟨RESPONSE_MAX_TOKENS, _prune_messages st.messages 6 6⟩,
        ⟨REDUCED_MAX_TOKENS, _prune_messages st.messages 6 6 ++ [rateLimitDirective]⟩] := by
  rw [stepIter, hp, hs]
  dsimp only [appendMsg, recordCall]
  rw [(continueWithReply_frame _ blocks).2.2.2]
  simp

theorem stepIter_rl_rl (st : AgentSt) (rest : List ModelEvent)
    (hp : st.phase = .running) (hs : st.script = .rateLimit :: .rateLimit :: rest) :
    stepIter st =
      { st with
        phase := .errored "rate limit",
        iteration := st.iteration + 1,
        script := rest,
        messages := _prune_messages st.messages 6 6 ++ [rateLimitDirective],
        appendedLog := st.appendedLog ++ [rateLimitDirective],
        calls := st.calls ++ [⟨RESPONSE_MAX_TOKENS, _prune_messages st.messages 6 6⟩,
          ⟨REDUCED_MAX_TOKENS, _prune_messages st.messages 6 6 ++ [rateLimitDirective]⟩] } := by
  rw [stepIter, hp, hs]
  dsimp only [appendMsg, recordCall]
  simp

/-! ### Outcome and initial-state projections -/

theorem finishOutcome_fields (td : String) (tn : Option String) (stF : AgentSt) :
    (finishOutcome td tn stF).iterations = stF.iteration ∧
    (finishOutcome td tn stF).calls = stF.calls ∧
    (finishOutcome td tn stF).budgetTrace = stF.budgetTrace ∧
    (finishOutcome td tn stF).appendedLog = stF.appendedLog ∧
    (finishOutcome td tn stF).analysis.description = td ∧
    (finishOutcome td tn stF).analysis.requirements = [td] := by
  rw [finishOutcome]
  split <;> exact ⟨rfl, rfl, rfl, rfl, rfl, rfl⟩

theorem finishOutcome_normal (td : String) (tn : Option String) (stF : AgentSt)
    (h : stF.phase = .finished) :
    (finishOutcome td tn stF).viaFallback = false ∧
    (finishOutcome td tn stF).changes =
      stF.files_modified.map fun p => ⟨p.1, "", readFinal stF.fs p.1, p.2⟩ := by
  rw [finishOutcome, h]
  exact ⟨rfl, rfl⟩

theorem finishOutcome_errored (td : String) (tn : Option String) (stF : AgentSt)
    (e : String) (h : stF.phase = .errored e) :
    (finishOutcome td tn stF).viaFallback = true ∧
    (finishOutcome td tn stF).changes =
      [⟨"IMPLEMENTATION_NOTES.md", "",
        fallbackNotesContent (create_title_from_description td) td e,
        "Created implementation notes for " ++ create_title_from_description td⟩] ∧
    (finishOutcome td tn stF).analysis.title = create_title_from_description td := by
  simp [finishOutcome, h]

theorem initState_inv (script : List ModelEvent) (fs0 : List FSNode) (td rc rp : String) :
    LoopInv (initState script fs0 td rc rp) := by
  refine ⟨by simp [initState, MAX_READS], by simp [initState, MAX_SEARCHES],
    by simp [initState, tcBound], ⟨?_, ?_⟩, ?_⟩
  · simp [initState, obsOf]
  · simp [initState]
  · intro b hb
    simp [initState] at hb
    subst hb
    simp [MAX_READS, MAX_SEARCHES]

theorem initState_roles (script : List ModelEvent) (fs0 : List FSNode) (td rc rp : String) :
    RolesOK (initState script fs0 td rc rp) := by
  refine ⟨?_, ?_, ?_⟩ <;> intro m hm <;> simp [initState] at hm
  · subst hm; exact Or.inl rfl
  · subst hm; exact Or.inl rfl

theorem fallbackNotes_has_title (t td e : String) :
    ∃ p q, fallbackNotesContent t td e = p ++ t ++ q := by
  refine ⟨"# Implementation for: ",
    "\n\n## Description\n" ++ td ++
      "\n\n## Status\nThis is a placeholder implementation due to an error in tool-based code generation.\nPlease review the ticket requirements and implement manually.\n\n## Error\n" ++
      e ++ "\n", ?_⟩
  simp [fallbackNotesContent, String.append_assoc]

theorem fallbackNotes_has_desc (t td e : String) :
    ∃ p q, fallbackNotesContent t td e = p ++ td ++ q := by
  refine ⟨"# Implementation for: " ++ t ++ "\n\n## Description\n",
    "\n\n## Status\nThis is a placeholder implementation due to an error in tool-based code generation.\nPlease review the ticket requirements and implement manually.\n\n## Error\n" ++
      e ++ "\n", ?_⟩
  simp [fallbackNotesContent, String.append_assoc]

/-! ## The iteration bound (C4) -/

/-- C4.  Whatever the scripted model responses are — including runs in which
every reply requests more tools — `analyze_ticket` performs at most
`MAX_ITERATIONS` (10) loop iterations and terminates, returning an analysis
that carries the ticket description and a list of `CodeChange`. -/
theorem C4_loop_iteration_bound (script : List ModelEvent) (fs0 : List FSNode)
    (td rc rp : String) :
    (analyze_ticket script fs0 td rc rp).iterations ≤ MAX_ITERATIONS ∧
    (analyze_ticket script fs0 td rc rp).analysis.description = td := by
  rw [analyze_ticket]
  refine ⟨?_, (finishOutcome_fields _ _ _).2.2.2.2.1⟩
  rw [(finishOutcome_fields _ _ _).1]
  have h := runLoop_iteration MAX_ITERATIONS (initState script fs0 td rc rp)
  simpa [initState] using h

/-! ## The budget counters (C1) -/

/-- C1 (amended).  Over every run the observation trace of the three budget
counters (tool calls, reads, searches) is componentwise non-decreasing, and
at every observation point reads ≤ MAX_READS and searches ≤ MAX_SEARCHES;
the tool-call counter, however, is bounded only by
MAX_TOOL_CALLS + (MAX_ITERATIONS - 1) = 19 rather than by MAX_TOOL_CALLS:
the source increments `tool_calls_used` before testing `>= MAX_TOOL_CALLS`,
so once the budget is exhausted every later iteration that still requests a
tool pushes the counter one further. -/
theorem C1_budget_counters (script : List ModelEvent) (fs0 : List FSNode)
    (td rc rp : String) :
    List.Chain' obsLE (analyze_ticket script fs0 td rc rp).budgetTrace ∧
    ∀ b ∈ (analyze_ticket script fs0 td rc rp).budgetTrace,
      b.2.1 ≤ MAX_READS ∧ b.2.2 ≤ MAX_SEARCHES ∧
      b.1 ≤ MAX_TOOL_CALLS + (MAX_ITERATIONS - 1) := by
  rw [analyze_ticket]
  rw [(finishOutcome_fields _ _ _).2.2.1]
  have hinv := runLoop_inv MAX_ITERATIONS _ (initState_inv script fs0 td rc rp)
  obtain ⟨-, -, -, ⟨-, hchain⟩, hent⟩ := hinv
  refine ⟨hchain, fun b hb => ?_⟩
  obtain ⟨h1, h2, h3⟩ := hent b hb
  refine ⟨h1, h2, h3.trans ?_⟩
  have hit : (runLoop MAX_ITERATIONS (initState script fs0 td rc rp)).iteration ≤ 10 := by
    simpa [initState] using runLoop_iteration MAX_ITERATIONS (initState script fs0 td rc rp)
  exact (tcBound_mono hit).trans (by decide)

/-- C1 counterexample: eleven `list_directory` requests spread over two
replies drive the recorded tool-call counter beyond MAX_TOOL_CALLS — the
increment happens before the exhaustion check, and an iteration after
exhaustion increments it again — refuting the original `toolCalls ≤ 10`
bound at every observation point. -/
theorem C1_budget_counters_counterexample :
    ∃ b ∈ (analyze_ticket
      [.reply [.toolUse "t1" "list_directory" ToolInput.base,
               .toolUse "t2" "list_directory" ToolInput.base,
               .toolUse "t3" "list_directory" ToolInput.base,
               .toolUse "t4" "list_directory" ToolInput.base,
               .toolUse "t5" "list_directory" ToolInput.base,
               .toolUse "t6" "list_directory" ToolInput.base,
               .toolUse "t7" "list_directory" ToolInput.base,
               .toolUse "t8" "list_directory" ToolInput.base,
               .toolUse "t9" "list_directory" ToolInput.base,
               .toolUse "t10" "list_directory" ToolInput.base],
       .reply [.toolUse "t11" "list_directory" ToolInput.base],
       .reply []] [] "t" "" "").budgetTrace,
      MAX_TOOL_CALLS < b.1 := by
  decide

/-- Witness for C1: the amended bound instantiated on a concrete run at the
initial observation point. -/
theorem C1_budget_counters_witness :
    ((0, 0, 0) : Nat × Nat × Nat).2.1 ≤ MAX_READS ∧
    ((0, 0, 0) : Nat × Nat × Nat).2.2 ≤ MAX_SEARCHES ∧
    ((0, 0, 0) : Nat × Nat × Nat).1 ≤ MAX_TOOL_CALLS + (MAX_ITERATIONS - 1) :=
  (C1_budget_counters [] [] "t" "" "").2 (0, 0, 0) (by decide)

/-! ## The no-tool run and the fallback producer (C2) -/

/-- C2 (amended).  A run whose first model reply requests no tool terminates
in one iteration with an EMPTY CodeChange list and without the fallback
producer — contrary to the original claim, the no-tool success path does not
supply the notes artifact.  The fallback producer fires only when an error
escapes the loop, and then supplies exactly one CodeChange: the fixed-name
IMPLEMENTATION_NOTES.md artifact whose content contains the derived ticket
title, the ticket description, and every requirement of the returned
analysis. -/
theorem C2_no_tool_and_fallback (blocks : List Block) (rest : List ModelEvent)
    (fs0 : List FSNode) (td rc rp : String) (hnb : toolCallsOf blocks = []) :
    ((analyze_ticket (.reply blocks :: rest) fs0 td rc rp).changes = [] ∧
     (analyze_ticket (.reply blocks :: rest) fs0 td rc rp).iterations = 1 ∧
     (analyze_ticket (.reply blocks :: rest) fs0 td rc rp).viaFallback = false) ∧
    ∀ (emsg : String) (rest2 : List ModelEvent),
      (analyze_ticket (.failure emsg :: rest2) fs0 td rc rp).viaFallback = true ∧
      ∃ ch, (analyze_ticket (.failure emsg :: rest2) fs0 td rc rp).changes = [ch] ∧
        ch.file_path = "IMPLEMENTATION_NOTES.md" ∧
        (∃ p q, ch.new_content =
          p ++ (analyze_ticket (.failure emsg :: rest2) fs0 td rc rp).analysis.title ++ q) ∧
        (∃ p q, ch.new_content = p ++ td ++ q) ∧
        (∀ r ∈ (analyze_ticket (.failure emsg :: rest2) fs0 td rc rp).analysis.requirements,
          ∃ p q, ch.new_content = p ++ r ++ q) := by
  constructor
  · have hstep := stepIter_reply_noTools
      (initState (.reply blocks :: rest) fs0 td rc rp) blocks rest rfl rfl hnb
    have hrun : runLoop MAX_ITERATIONS (initState (.reply blocks :: rest) fs0 td rc rp)
        = stepIter (initState (.reply blocks :: rest) fs0 td rc rp) := by
      rw [show MAX_ITERATIONS = 9 + 1 from rfl, runLoop_succ 9 _ rfl, hstep]
      exact runLoop_nonrunning 9 _ (by simp)
    rw [analyze_ticket, hrun, hstep]
    refine ⟨?_, ?_, (finishOutcome_normal td _ _ (by simp)).1⟩
    · rw [(finishOutcome_normal td _ _ (by simp)).2]
      simp [initState]
    · rw [(finishOutcome_fields _ _ _).1]
      simp [initState]
  · intro emsg rest2
    have hstep := stepIter_failure
      (initState (.failure emsg :: rest2) fs0 td rc rp) emsg rest2 rfl rfl
    have hrun : runLoop MAX_ITERATIONS (initState (.failure emsg :: rest2) fs0 td rc rp)
        = stepIter (initState (.failure emsg :: rest2) fs0 td rc rp) := by
      rw [show MAX_ITERATIONS = 9 + 1 from rfl, runLoop_succ 9 _ rfl, hstep]
      exact runLoop_nonrunning 9 _ (by simp)
    rw [analyze_ticket, hrun, hstep]
    have hfo := finishOutcome_errored td (extract_ticket_number td) _ emsg
      (show (stepIter (initState (.failure emsg :: rest2) fs0 td rc rp)).phase
          = .errored emsg by rw [hstep])
    rw [hstep] at hfo
    refine ⟨hfo.1, _, hfo.2.1, rfl, ?_, fallbackNotes_has_desc _ td emsg, ?_⟩
    · rw [hfo.2.2]
      exact fallbackNotes_has_title _ td emsg
    · intro r hr
      rw [(finishOutcome_fields _ _ _).2.2.2.2.2] at hr
      simp only [List.mem_singleton] at hr
      subst hr
      exact fallbackNotes_has_desc _ r emsg

/-- C2 counterexample: a run whose single model reply contains no tool use
returns an EMPTY change list and never invokes the fallback producer — the
original claim promised exactly one notes CodeChange on this path. -/
theorem C2_no_tool_and_fallback_counterexample :
    (analyze_ticket [.reply [.text "done"]] [] "ticket" "" "").changes = [] ∧
    (analyze_ticket [.reply [.text "done"]] [] "ticket" "" "").viaFallback = false := by
  constructor <;> rfl

/-- Witness for C2: the amended statement applied to a concrete no-tool
reply. -/
theorem C2_no_tool_and_fallback_witness :
    (analyze_ticket [.reply [.text "ok"]] [] "t" "" "").changes = [] :=
  (C2_no_tool_and_fallback [.text "ok"] [] [] "t" "" "" rfl).1.1

/-! ## The rate-limit retry (C9) -/

/-- C9.  On a rate-limit event the orchestrator appends the directive user
message to the transcript and retries the model call once within the same
iteration, with the output-token limit reduced from RESPONSE_MAX_TOKENS =
2500 to 1500 (60% of nominal): the two recorded calls of that iteration are
the original transcript at 2500 and the directive-extended transcript at
1500.  A second consecutive rate-limit is not retried again: the run ends
through the fallback producer having recorded exactly those two calls. -/
theorem C9_rate_limit_retry (blocks : List Block) (rest rest2 : List ModelEvent)
    (fs0 : List FSNode) (td rc rp : String) :
    RESPONSE_MAX_TOKENS = 2500 ∧ REDUCED_MAX_TOKENS = 1500 ∧
    (∃ m1, (analyze_ticket (.rateLimit :: .reply blocks :: rest) fs0 td rc rp).calls.take 2 =
        [⟨RESPONSE_MAX_TOKENS, m1⟩, ⟨REDUCED_MAX_TOKENS, m1 ++ [rateLimitDirective]⟩]) ∧
    ((analyze_ticket (.rateLimit :: .rateLimit :: rest2) fs0 td rc rp).viaFallback = true ∧
      ∃ m1, (analyze_ticket (.rateLimit :: .rateLimit :: rest2) fs0 td rc rp).calls =
        [⟨RESPONSE_MAX_TOKENS, m1⟩, ⟨REDUCED_MAX_TOKENS, m1 ++ [rateLimitDirective]⟩]) := by
  refine ⟨rfl, rfl, ?_, ?_⟩
  · refine ⟨_prune_messages
      (initState (.rateLimit :: .reply blocks :: rest) fs0 td rc rp).messages 6 6, ?_⟩
    rw [analyze_ticket, (finishOutcome_fields _ _ _).2.1]
    have hc := stepIter_rl_reply
      (initState (.rateLimit :: .reply blocks :: rest) fs0 td rc rp) blocks rest rfl rfl
    have hsp : (stepIter (initState (.rateLimit :: .reply blocks :: rest) fs0 td rc rp)).calls
        <+: (runLoop MAX_ITERATIONS
          (initState (.rateLimit :: .reply blocks :: rest) fs0 td rc rp)).calls := by
      rw [show MAX_ITERATIONS = 9 + 1 from rfl, runLoop_succ 9 _ rfl]
      exact runLoop_calls_prefix 9 _
    obtain ⟨t, ht⟩ := hsp
    rw [← ht, hc]
    simp [initState]
  · have hstep := stepIter_rl_rl
      (initState (.rateLimit :: .rateLimit :: rest2) fs0 td rc rp) rest2 rfl rfl
    have hrun : runLoop MAX_ITERATIONS (initState (.rateLimit :: .rateLimit :: rest2) fs0 td rc rp)
        = stepIter (initState (.rateLimit :: .rateLimit :: rest2) fs0 td rc rp) := by
      rw [show MAX_ITERATIONS = 9 + 1 from rfl, runLoop_succ 9 _ rfl, hstep]
      exact runLoop_nonrunning 9 _ (by simp)
    rw [analyze_ticket, hrun, hstep]
    refine ⟨(finishOutcome_errored td _ _ "rate limit" rfl).1,
      _prune_messages (initState (.rateLimit :: .rateLimit :: rest2) fs0 td rc rp).messages 6 6,
      ?_⟩
    rw [(finishOutcome_fields _ _ _).2.1]
    simp [initState]

/-! ## Transcript roles (C10) -/

/-- C10.  Every message the orchestrator ever places in the transcript — in
the append-only log and in every transcript handed to the model service —
has role "user" or "assistant" (tool results ride inside user-role
messages), so the pruner's unconditional-retention branch for other roles is
never exercised in a run; and tool-result user messages do count against the
user-role cap: pruning seven of them under cap 6 drops the oldest one. -/
theorem C10_transcript_roles (script : List ModelEvent) (fs0 : List FSNode)
    (td rc rp : String) :
    (∀ m ∈ (analyze_ticket script fs0 td rc rp).appendedLog,
        m.role = "user" ∨ m.role = "assistant") ∧
    (∀ cr ∈ (analyze_ticket script fs0 td rc rp).calls,
        ∀ m ∈ cr.sent, m.role = "user" ∨ m.role = "assistant") ∧
    _prune_messages
        [⟨"user", [.toolResult "1" "r"]⟩, ⟨"user", [.toolResult "2" "r"]⟩,
         ⟨"user", [.toolResult "3" "r"]⟩, ⟨"user", [.toolResult "4" "r"]⟩,
         ⟨"user", [.toolResult "5" "r"]⟩, ⟨"user", [.toolResult "6" "r"]⟩,
         ⟨"user", [.toolResult "7" "r"]⟩] 6 6 =
      [⟨"user", [.toolResult "2" "r"]⟩, ⟨"user", [.toolResult "3" "r"]⟩,
       ⟨"user", [.toolResult "4" "r"]⟩, ⟨"user", [.toolResult "5" "r"]⟩,
       ⟨"user", [.toolResult "6" "r"]⟩, ⟨"user", [.toolResult "7" "r"]⟩] := by
  have hr := runLoop_roles MAX_ITERATIONS _ (initState_roles script fs0 td rc rp)
  rw [analyze_ticket]
  refine ⟨?_, ?_, by decide⟩
  · rw [(finishOutcome_fields _ _ _).2.2.2.1]
    exact hr.2.1
  · rw [(finishOutcome_fields _ _ _).2.1]
    exact hr.2.2

/-- Witness for C10: the role property instantiated on a concrete run at its
seed transcript message. -/
theorem C10_transcript_roles_witness :
    (⟨"user", [Block.text (initialPrompt "t" (extract_keywords "t") "")]⟩ : Msg).role = "user" ∨
    (⟨"user", [Block.text (initialPrompt "t" (extract_keywords "t") "")]⟩ : Msg).role = "assistant" :=
  (C10_transcript_roles [] [] "t" "" "").1 _ (List.mem_singleton.mpr rfl)

/-- Witness for C5: the boundary statement instantiated at an unset
repository root, an unknown tool and a non-write tool. -/
theorem C5_execute_tool_boundary_witness :
    _execute_tool "" [] "read_file" ToolInput.base =
      (.error "No repository path set. Cannot execute file operations.", ([] : List FSNode)) ∧
    _execute_tool "/repo" [] "bogus" ToolInput.base =
      (.error ("Unknown tool: " ++ "bogus"), ([] : List FSNode)) ∧
    (_execute_tool "/repo" [] "list_directory" ToolInput.base).2 = ([] : List FSNode) :=
  ⟨(C5_execute_tool_boundary "" [] "read_file" ToolInput.base).1 rfl,
   (C5_execute_tool_boundary "/repo" [] "bogus" ToolInput.base).2.1 (by decide) (by decide),
   (C5_execute_tool_boundary "/repo" [] "list_directory" ToolInput.base).2.2 (by decide)⟩

/-- Witness for C6: the per-entry bounds instantiated on a one-file tree
whose single file matches the pattern. -/
theorem C6_search_files_bounds_witness :
    (⟨String.intercalate "/" ([] ++ ["a.txt"]), lineNumbersFor "hello" "hello"⟩
        : SearchMatch).line_numbers.length ≤ 5 ∧
    ∃ comps : List String, comps ≠ [] ∧
      (⟨String.intercalate "/" ([] ++ ["a.txt"]), lineNumbersFor "hello" "hello"⟩
          : SearchMatch).file = String.intercalate "/" comps ∧
      (∀ c ∈ comps, startswith c "." = false) ∧
      (∀ c ∈ comps.dropLast, c ∉ buildSkipDirs) :=
  (C6_search_files_bounds [.file "a.txt" "hello" true] "hello" none).2
    ⟨String.intercalate "/" ([] ++ ["a.txt"]), lineNumbersFor "hello" "hello"⟩
    (List.mem_cons_self _ _)

end TicketAgent
